import Mathlib

/-!
Verification development for the BLOA tree-walking interpreter
(`src/include/bloa/{ast,env,interpreter,parser}.hpp`, `src/src/{interpreter,parser}.cpp`).

The interpreter core is shallowly embedded:
* `Value` mirrors the `std::variant` payload of `bloa::Value` (env.hpp lines 14-33).
  The C++ `double` payload (`Float64`) is modeled exactly by `ℚ`: every arithmetic
  step performed by the interpreter on the inputs appearing in this development
  is exact in IEEE double precision, so the rational model agrees with the code.
* `Node` mirrors the AST node classes of ast.hpp.
* Environments live in a store (`St.envs`), indexed by allocation order; a
  `Scope` holds its parent index and its own name-to-value map, mirroring the
  `shared_ptr<Environment>` chain.
* The statement executor, expression evaluator, and block parser are translated
  function-by-function from interpreter.cpp / parser.cpp as fuel-indexed
  functions (`Nat` fuel makes the mutual recursion total; running out of fuel
  yields the distinguished `Outcome.timeout`, never confused with the C++
  `std::runtime_error` outcomes, which are `Outcome.err` carrying the message).
* C++ exceptions mutate-then-unwind, so `Outcome.err` carries the state at
  throw time; `TryExcept` (which does `catch (...)`) resumes from that state.
-/

namespace Bloa

/-- Runtime values: the variant `std::monostate, int64_t, double, std::string,
bool, std::vector<Value>` of env.hpp.  `int64_t` is modeled as `Int` (no claim
exercises wrap-around), `double` as `ℚ` (see the header comment). -/
inductive Value : Type where
  | nil
  | int (i : Int)
  | float (q : ℚ)
  | str (s : String)
  | bool (b : Bool)
  | list (l : List Value)

/-- AST statement nodes, one constructor per class of ast.hpp. -/
inductive Node : Type where
  | say (expr : String)
  | ask (prompt : String) (var : String)
  | assign (name : String) (expr : String)
  | iff (cond : String) (thenBlock : List Node) (elseBlock : List Node)
  | rep (timesExpr : String) (block : List Node)
  | fnDef (name : String) (params : List String) (block : List Node)
  | fnCall (name : String) (args : List String)
  | ret (expr : Option String)
  | imp (name : String)
  | exprStmt (expr : String)
  | wh (cond : String) (block : List Node)
  | brk
  | cont
  | forIn (var : String) (iterable : String) (block : List Node)
  | tryExc (tryBlock : List Node) (exceptBlock : List Node)

/-- One `bloa::Environment`: parent pointer (index into the store) and the
name-to-value map (`std::unordered_map` modeled as an association list). -/
structure Scope where
  parent : Option Nat
  vars : List (String × Value)

/-- One `Interpreter::FunctionDefEntry`: parameter names, body, captured
defining environment (interpreter.hpp line 19). -/
structure FunEntry where
  params : List String
  block : List Node
  defEnv : Nat

/-- The mutable world: the store of all allocated environments, the current
interpreter's function table and module registry, console output, pending
console input lines, and the read-only file system seen by `Import`
(path-to-contents map). -/
structure St where
  envs : List Scope
  functions : List (String × FunEntry)
  modules : List (String × Nat)
  output : String
  input : List String
  fs : List (String × String)

/-- Per-interpreter-object data that never mutates: the global environment
created by the constructor and the `stdlib_path` field. -/
structure Ctx where
  globalEnv : Nat
  stdlibPath : String

/-- Result of running an interpreter step: normal completion, a thrown
`std::runtime_error` (message plus the state at throw time), or fuel
exhaustion (a model artifact only; no C++ behavior maps to it). -/
inductive Outcome (α : Type) : Type where
  | ok (a : α) (st : St)
  | err (msg : String) (st : St)
  | timeout

/-- State-and-exception monad the embedded interpreter runs in. -/
def M (α : Type) : Type := St → Outcome α

def M.pure (a : α) : M α := fun st => .ok a st

def M.bind (m : M α) (k : α → M β) : M β := fun st =>
  match m st with
  | .ok a st' => k a st'
  | .err msg st' => .err msg st'
  | .timeout => .timeout

instance : Monad M where
  pure := M.pure
  bind := M.bind

/-- Model of `throw std::runtime_error(msg)`. -/
def M.throwErr (msg : String) : M α := fun st => .err msg st

/-- Model of running out of fuel (no C++ counterpart). -/
def M.stop : M α := fun _ => .timeout

/-- Association-list lookup, modeling `std::unordered_map::find`. -/
def lookupA (l : List (String × Value)) (n : String) : Option Value :=
  match l with
  | [] => none
  | (k, v) :: rest => if k = n then some v else lookupA rest n

/-- Association-list update/insert, modeling `map[key] = value`. -/
def updateA (l : List (String × Value)) (n : String) (v : Value) : List (String × Value) :=
  match l with
  | [] => [(n, v)]
  | (k, w) :: rest => if k = n then (n, v) :: rest else (k, w) :: updateA rest n v

/-- Function-table lookup (`functions.find(name)`). -/
def lookupF (l : List (String × FunEntry)) (n : String) : Option FunEntry :=
  match l with
  | [] => none
  | (k, v) :: rest => if k = n then some v else lookupF rest n

/-- Function-table update (`functions[name] = entry`; flat namespace,
redefinition overwrites). -/
def updateF (l : List (String × FunEntry)) (n : String) (v : FunEntry) :
    List (String × FunEntry) :=
  match l with
  | [] => [(n, v)]
  | (k, w) :: rest => if k = n then (n, v) :: rest else (k, w) :: updateF rest n v

/-- Module-registry update (`loaded_modules[name] = env`). -/
def updateMod (l : List (String × Nat)) (n : String) (e : Nat) : List (String × Nat) :=
  match l with
  | [] => [(n, e)]
  | (k, w) :: rest => if k = n then (n, e) :: rest else (k, w) :: updateMod rest n e

/-- Walk of the parent chain from scope `e`, `Environment::get`
(interpreter.cpp lines 79-84).  The fuel `e + 1` always suffices because a
scope's parent is allocated before it, so parent indices strictly decrease. -/
def envGetAux (st : St) : Nat → Nat → String → Option Value
  | 0, _, _ => none
  | f + 1, e, n =>
    match st.envs.get? e with
    | none => none
    | some sc =>
      match lookupA sc.vars n with
      | some v => some v
      | none =>
        match sc.parent with
        | none => none
        | some p => envGetAux st f p n

/-- `Environment::get`: innermost-first lookup along the parent chain. -/
def envGet (st : St) (e : Nat) (n : String) : Option Value :=
  envGetAux st (e + 1) e n

/-- The three constant names of `Environment::set`. -/
def isConstName (n : String) : Bool :=
  n = "true" || n = "false" || n = "None"

/-- `Environment::set` (interpreter.cpp lines 86-97): rejects a rebinding of
`true`/`false`/`None` when the name is already present in THIS scope's own
map (`vars.find(name)` does not consult the parent chain), otherwise writes
into the current scope only. -/
def envSet (e : Nat) (n : String) (v : Value) : M Unit := fun st =>
  match st.envs.get? e with
  | none => .ok () st
  | some sc =>
    if isConstName n && (lookupA sc.vars n).isSome then
      .err ("Cannot reassign constant '" ++ n ++ "'") st
    else
      .ok () { st with envs := st.envs.set e { sc with vars := updateA sc.vars n v } }

/-- `std::make_shared<Environment>(parent)`: appends a fresh scope to the
store and returns its index. -/
def allocScope (parent : Option Nat) : M Nat := fun st =>
  .ok st.envs.length { st with envs := st.envs ++ [⟨parent, []⟩] }

/-- Append text to standard output. -/
def emit (s : String) : M Unit := fun st =>
  .ok () { st with output := st.output ++ s }

/-- `std::getline(std::cin, input)`: pops the next pending line; at end of
input the C++ `getline` fails leaving `input` empty, modeled by `""`. -/
def readLine : M String := fun st =>
  match st.input with
  | [] => .ok "" st
  | l :: rest => .ok l { st with input := rest }

def getState : M St := fun st => .ok st st

def setFunctions (f : List (String × FunEntry)) : M Unit := fun st =>
  .ok () { st with functions := f }

def setModules (m : List (String × Nat)) : M Unit := fun st =>
  .ok () { st with modules := m }

/-! ### Character classes and number rendering -/

/-- C `isspace` on the ASCII range (as used by `skip_space` and `trim`). -/
def isSpaceC (c : Char) : Bool :=
  c = ' ' || c = '\t' || c = '\n' || c = '\r' || c = '\x0b' || c = '\x0c'

/-- `is_ident_start` (interpreter.cpp lines 143-145). -/
def identStart (c : Char) : Bool := c.isAlpha || c = '_'

/-- `is_ident_continue` (interpreter.cpp lines 147-149); note that the
apostrophe is an identifier character in this language. -/
def identCont (c : Char) : Bool := c.isAlphanum || c = '_' || c = '\''

/-- Decimal digit character for `n < 10`. -/
def digitChar (n : Nat) : Char := Char.ofNat (48 + n)

/-- Decimal digits of `n`, most significant first; the first argument is
fuel (`n + 1` always suffices since `n / 10 < n` for `n ≥ 10`). -/
def natDigitsAux : Nat → Nat → List Char
  | 0, _ => []
  | f + 1, n => if n < 10 then [digitChar n] else natDigitsAux f (n / 10) ++ [digitChar (n % 10)]

def natDigits (n : Nat) : List Char := natDigitsAux (n + 1) n

/-- Decimal rendering of a natural number (the digits of `std::to_string`). -/
def natRepr (n : Nat) : String := ⟨natDigits n⟩

/-- `std::to_string(int64_t)`: optional minus sign followed by the digits. -/
def intRepr (i : Int) : String :=
  if i < 0 then "-" ++ natRepr i.natAbs else natRepr i.natAbs

/-- Value of a list of decimal digit characters. -/
def digitsVal (l : List Char) : Nat :=
  l.foldl (fun acc c => 10 * acc + (c.toNat - 48)) 0

/-- Character list of `std::to_string(a)` for an `int64_t`. -/
def intChars (a : Int) : List Char := (intRepr a).data

/-- Left-pad with zeros to 6 characters (fraction part of `%f`). -/
def padZero6 (l : List Char) : List Char :=
  List.replicate (6 - l.length) '0' ++ l

/-- Fixed-point rendering with 6 fraction digits of a nonnegative rational,
rounding to nearest (models `std::to_string(double)` = `printf "%f"`; the
tie-breaking direction never matters in this development). -/
def fixed6core (q : ℚ) : String :=
  let scaled : Int := ⌊q * 1000000 + 1 / 2⌋
  let ip : Int := scaled / 1000000
  let fp : Int := scaled % 1000000
  intRepr ip ++ "." ++ (⟨padZero6 (natDigits fp.toNat)⟩ : String)

/-- `std::to_string(double)` for a rational modeling the double. -/
def fixed6 (q : ℚ) : String :=
  if q < 0 then "-" ++ fixed6core (-q) else fixed6core q

/-! ### Value helpers (interpreter.cpp lines 17-73) -/

mutual

/-- `value_to_string` (interpreter.cpp lines 18-41).  The `double` branch
prints integral values as integers (`std::floor(d) == d`, i.e. denominator 1)
and otherwise uses `std::to_string`'s fixed 6-digit form. -/
def value_to_string : Value → String
  | .nil => "None"
  | .int i => intRepr i
  | .float d => if d.den = 1 then intRepr d.num else fixed6 d
  | .str s => s
  | .bool b => if b then "true" else "false"
  | .list l => "[" ++ listToString l ++ "]"

/-- The element loop of `value_to_string`'s list branch
(`", "`-separated). -/
def listToString : List Value → String
  | [] => ""
  | [v] => value_to_string v
  | v :: w :: rest => value_to_string v ++ ", " ++ listToString (w :: rest)

end

/-- `is_list_value` (interpreter.cpp lines 43-45). -/
def is_list_value : Value → Bool
  | .list _ => true
  | _ => false

/-- Digit run at the front: value and remaining input. -/
def takeDigits (l : List Char) : List Char × List Char :=
  match l with
  | [] => ([], [])
  | c :: rest =>
    if c.isDigit then
      let (ds, r) := takeDigits rest
      (c :: ds, r)
    else ([], l)

/-- `std::numeric_limits<int64_t>` bounds (`-2^63` and `2^63 - 1`), for the
`std::stoll` overflow checks. -/
def int64Min : Int := -9223372036854775808

def int64Max : Int := 9223372036854775807

/-- Hexadecimal digit test, for the hexadecimal form of `strtod`. -/
def isHexC (c : Char) : Bool :=
  c.isDigit || ('a' ≤ c && c ≤ 'f') || ('A' ≤ c && c ≤ 'F')

/-- Value of one hexadecimal digit. -/
def hexDigitVal (c : Char) : Nat :=
  if c.isDigit then c.toNat - 48
  else if 'a' ≤ c then c.toNat - 87
  else c.toNat - 55

/-- Hex-digit run at the front: digits and remaining input. -/
def takeHexDigits (l : List Char) : List Char × List Char :=
  match l with
  | [] => ([], [])
  | c :: rest =>
    if isHexC c then
      let (ds, r) := takeHexDigits rest
      (c :: ds, r)
    else ([], l)

/-- Numeric value of a hex-digit run. -/
def hexDigitsVal (l : List Char) : Nat :=
  l.foldl (fun acc c => 16 * acc + hexDigitVal c) 0

/-- Case-insensitive comparison of an input character against a lowercase
letter. -/
def ciEq (c e : Char) : Bool := c == e || c.toNat == e.toNat - 32

/-- Case-insensitive prefix test against a lowercase pattern. -/
def ciPrefix (pat l : List Char) : Bool :=
  match pat, l with
  | [], _ => true
  | _ :: _, [] => false
  | e :: es, c :: cs => ciEq c e && ciPrefix es cs

/-- Characters allowed in the `nan(n-char-seq)` form of `strtod`: digits,
letters and underscore. -/
def isNanChar (c : Char) : Bool := c.isAlphanum || c == '_'

/-- Result of a successful `std::stod` conversion: a finite value, or one of
the non-finite forms (`inf`/`infinity`/`nan`/`nan(...)`, case-insensitive),
which denote non-finite doubles and so fall outside the exact-rational
idealization of `Float64` used throughout this development. -/
inductive StodRes
  | fin : ℚ → StodRes
  | nonfinite : StodRes

/-- Decimal branch of the `strtod` subject sequence: digits with an optional
fractional part, then an optional `e`-exponent (which needs at least one
digit of its own, otherwise `strtod` backtracks and leaves the `e`
unconsumed).  Returns the value and the number of characters consumed. -/
def decCore (l : List Char) : Option (StodRes × Nat) :=
  let (ds, l1) := takeDigits l
  let (fs, fracLen, l2) : List Char × Nat × List Char :=
    match l1 with
    | '.' :: t =>
      let (fs, t2) := takeDigits t
      (fs, fs.length + 1, t2)
    | _ => ([], 0, l1)
  if ds.isEmpty && fs.isEmpty then none
  else
    let mag : ℚ :=
      if fs.isEmpty then (digitsVal ds : ℚ)
      else (digitsVal ds : ℚ) + (digitsVal fs : ℚ) / ((10 : ℚ) ^ fs.length)
    match l2 with
    | c :: t =>
      if c == 'e' || c == 'E' then
        let (esgn, eneg, t2) : Nat × Bool × List Char :=
          match t with
          | '-' :: u => (1, true, u)
          | '+' :: u => (1, false, u)
          | _ => (0, false, t)
        let (eds, _) := takeDigits t2
        if eds.isEmpty then some (.fin mag, ds.length + fracLen)
        else
          let v : ℚ :=
            if eneg then mag / ((10 : ℚ) ^ digitsVal eds)
            else mag * ((10 : ℚ) ^ digitsVal eds)
          some (.fin v, ds.length + fracLen + 1 + esgn + eds.length)
      else some (.fin mag, ds.length + fracLen)
    | [] => some (.fin mag, ds.length + fracLen)

/-- Hexadecimal branch of the `strtod` subject sequence, entered after a
`0x`/`0X` head: hex digits with an optional fractional part, then an
optional binary `p`-exponent (decimal digits; optional per `strtod`, and
backtracked when it has no digit).  When no hex digit follows the head at
all, the subject sequence is just the leading `0`.  The consumed count
includes the two head characters. -/
def hexCore (r : List Char) : Option (StodRes × Nat) :=
  let (ds, r1) := takeHexDigits r
  let (fs, fracLen, r2) : List Char × Nat × List Char :=
    match r1 with
    | '.' :: t =>
      let (fs, t2) := takeHexDigits t
      (fs, fs.length + 1, t2)
    | _ => ([], 0, r1)
  if ds.isEmpty && fs.isEmpty then some (.fin 0, 1)
  else
    let mag : ℚ :=
      if fs.isEmpty then (hexDigitsVal ds : ℚ)
      else (hexDigitsVal ds : ℚ) + (hexDigitsVal fs : ℚ) / ((16 : ℚ) ^ fs.length)
    match r2 with
    | c :: t =>
      if c == 'p' || c == 'P' then
        let (esgn, eneg, t2) : Nat × Bool × List Char :=
          match t with
          | '-' :: u => (1, true, u)
          | '+' :: u => (1, false, u)
          | _ => (0, false, t)
        let (eds, _) := takeDigits t2
        if eds.isEmpty then some (.fin mag, 2 + ds.length + fracLen)
        else
          let v : ℚ :=
            if eneg then mag / ((2 : ℚ) ^ digitsVal eds)
            else mag * ((2 : ℚ) ^ digitsVal eds)
          some (.fin v, 2 + ds.length + fracLen + 1 + esgn + eds.length)
      else some (.fin mag, 2 + ds.length + fracLen)
    | [] => some (.fin mag, 2 + ds.length + fracLen)

/-- The `strtod` subject sequence after whitespace and sign: the
case-insensitive `inf`/`infinity` and `nan`/`nan(n-char-seq)` forms, the
hexadecimal form, or the decimal form; `none` when no prefix matches (the
conversion throws `std::invalid_argument`). -/
def stodCore (l : List Char) : Option (StodRes × Nat) :=
  if ciPrefix ['i', 'n', 'f'] l then
    if ciPrefix ['i', 'n', 'f', 'i', 'n', 'i', 't', 'y'] l then
      some (.nonfinite, 8)
    else some (.nonfinite, 3)
  else if ciPrefix ['n', 'a', 'n'] l then
    match l.drop 3 with
    | '(' :: t =>
      let seq := t.takeWhile isNanChar
      match t.drop seq.length with
      | ')' :: _ => some (.nonfinite, 5 + seq.length)
      | _ => some (.nonfinite, 3)
    | _ => some (.nonfinite, 3)
  else
    match l with
    | '0' :: x :: r => if x == 'x' || x == 'X' then hexCore r else decCore l
    | _ => decCore l

/-- `std::stod(s, &pos)` (interpreter.cpp lines 53 and 478): value denoted
by the longest valid prefix — a leading `isspace` run, an optional sign,
then a decimal, hexadecimal, `inf` or `nan` form per `strtod` — together
with the number of characters consumed; trailing junk is ignored.  `none`
when no conversion can be performed (`std::invalid_argument`).
`std::stod` additionally throws `std::out_of_range` when a finite value
overflows or underflows the `double` range; the exact-rational idealization
of doubles is unbounded, so the model keeps the exact value there, and
theorems that quantify over coerced strings carry an explicit
`double`-range hypothesis instead. -/
def stodPos (l : List Char) : Option (StodRes × Nat) :=
  let ws := (l.takeWhile isSpaceC).length
  let l1 := l.drop ws
  let (sgn, neg) : Nat × Bool :=
    match l1 with
    | '-' :: _ => (1, true)
    | '+' :: _ => (1, false)
    | _ => (0, false)
  match stodCore (l1.drop sgn) with
  | none => none
  | some (StodRes.fin q, n) =>
    some (StodRes.fin (if neg then -q else q), ws + sgn + n)
  | some (StodRes.nonfinite, n) => some (StodRes.nonfinite, ws + sgn + n)

/-- `std::stod(s)` as called by `value_as_number` (interpreter.cpp line 53):
the converted value alone, position discarded. -/
def stodModel (l : List Char) : Option StodRes :=
  (stodPos l).map (fun p => p.1)

/-- `value_as_number` (interpreter.cpp lines 47-59): ints and doubles convert
directly; strings are tried through `std::stod` and coerce when they parse
to a finite value; everything else — including strings with no numeric
prefix, whose conversion throws into the `catch (...)` — throws
`"Value is not numeric"`.  A non-finite parse (`inf`/`nan` forms) yields a
non-finite double in the program, which the exact-rational model of
`Float64` cannot represent: the model maps that case to the non-numeric
error, and no theorem quantifies over it. -/
def value_as_number : Value → Except String ℚ
  | .int i => .ok (i : ℚ)
  | .float d => .ok d
  | .str s =>
    match stodModel s.data with
    | some (StodRes.fin q) => .ok q
    | _ => .error "Value is not numeric"
  | _ => .error "Value is not numeric"

/-- `value_is_true` (interpreter.cpp lines 61-69). -/
def value_is_true : Value → Bool
  | .nil => false
  | .bool b => b
  | .int i => i != 0
  | .float d => d != 0
  | .str s => !s.isEmpty
  | .list l => !l.isEmpty

/-- `static_cast<int64_t>` applied to a double: truncation toward zero.
On a rational this is `num.div den` (T-division). -/
def truncToInt (q : ℚ) : Int := q.num.tdiv (q.den : Int)

/-- `trim` (interpreter.cpp lines 136-141). -/
def trimC (l : List Char) : List Char :=
  ((l.dropWhile isSpaceC).reverse.dropWhile isSpaceC).reverse

/-! ### `std::stoll` with consumed-position, and the `Ask` ladder -/

/-- `std::stoll(input, &pos)` (interpreter.cpp line 473): whitespace,
optional sign, decimal digits.  Returns the value and the number of
characters consumed, or `none` when the conversion throws — no digits
(`std::invalid_argument`) or a value outside the `int64` range
(`std::out_of_range`); either throw lands in the surrounding
`catch (...)`. -/
def stollPos (l : List Char) : Option (Int × Nat) :=
  let ws := (l.takeWhile isSpaceC).length
  let l1 := l.drop ws
  let (sgn, neg) : Nat × Bool :=
    match l1 with
    | '-' :: _ => (1, true)
    | '+' :: _ => (1, false)
    | _ => (0, false)
  let (ds, _) := takeDigits (l1.drop sgn)
  if ds.isEmpty then none
  else
    let v : Int := if neg then -(digitsVal ds : Int) else (digitsVal ds : Int)
    if v < int64Min ∨ int64Max < v then none
    else some (v, ws + sgn + ds.length)

/-- The `Ask` conversion ladder (interpreter.cpp lines 472-485): full-width
integer parse, then full-width double parse, else keep the raw string (also
where every conversion throw lands, via the surrounding `catch (...)`).  A
full-width non-finite double parse (an interactive input such as `inf`)
stores a non-finite double in the program; that value is outside the
exact-rational idealization, and the model keeps the raw string in that
corner (no claim depends on `Ask`). -/
def askConvert (input : String) : Value :=
  match stollPos input.data with
  | none => .str input
  | some (i, p) =>
    if p = input.length then .int i
    else
      match stodPos input.data with
      | some (StodRes.fin q, p2) =>
        if p2 = input.length then .float q else .str input
      | _ => .str input

/-! ### Numeric operator models -/

/-- `std::fmod(a, b)` on doubles: `a - trunc(a/b) * b`, exact on rationals.
Only evaluated under the interpreter's `b != 0` guard. -/
def qfmod (a b : ℚ) : ℚ := a - (truncToInt (a / b) : ℚ) * b

/-- Models `std::pow(a, b)` on doubles.  Exact whenever the exponent is an
integer, which covers every use in this development; a non-integral exponent
generally has an irrational result, unrepresentable in `ℚ`, and is mapped to
`0` (no claim depends on that case). -/
def qpow (a b : ℚ) : ℚ :=
  if b.den = 1 then a ^ b.num else 0

/-! ### Builtins (interpreter.cpp lines 283-340) -/

/-- Lift `value_as_number` into the interpreter monad. -/
def liftNum (v : Value) : M ℚ :=
  match value_as_number v with
  | .ok q => pure q
  | .error e => M.throwErr e

/-- The `range` loop: integers `start .. stop-1`. -/
def rangeList (start stop : Int) : List Value :=
  (List.range (stop - start).toNat).map (fun k => Value.int (start + (k : Int)))

/-- Builtin dispatch on a string-valued callee (interpreter.cpp lines
283-339): `some action` when the string matches one of the seven
`__builtin_` markers, `none` otherwise (control then falls through to the
user-function table). -/
def tryBuiltin (marker : String) (args : List Value) : Option (M Value) :=
  if marker = "__builtin_print" then some (do
    emit (String.intercalate " " (args.map value_to_string) ++ "\n")
    pure Value.nil)
  else if marker = "__builtin_range" then some (do
    match args with
    | [a, b] => do
      let qa ← liftNum a
      let qb ← liftNum b
      pure (Value.list (rangeList (truncToInt qa) (truncToInt qb)))
    | _ => M.throwErr "range() requires 2 arguments")
  else if marker = "__builtin_len" then some (do
    match args with
    | [a] =>
      match a with
      | .str s => pure (Value.int (s.length : Int))
      | .list l => pure (Value.int (l.length : Int))
      | _ => M.throwErr "len() argument must be string or list"
    | _ => M.throwErr "len() requires 1 argument")
  else if marker = "__builtin_str" then some (do
    match args with
    | [a] => pure (Value.str (value_to_string a))
    | _ => M.throwErr "str() requires 1 argument")
  else if marker = "__builtin_int" then some (do
    match args with
    | [a] => do
      let q ← liftNum a
      pure (Value.int (truncToInt q))
    | _ => M.throwErr "int() requires 1 argument")
  else if marker = "__builtin_float" then some (do
    match args with
    | [a] => do
      let q ← liftNum a
      pure (Value.float q)
    | _ => M.throwErr "float() requires 1 argument")
  else if marker = "__builtin_append" then some (do
    match args with
    | [a, v] =>
      match a with
      | .list l => pure (Value.list (l ++ [v]))
      | _ => M.throwErr "First argument to append() must be a list"
    | _ => M.throwErr "append() requires 2 arguments (list, value)")
  else none

/-! ### Block parser (parser.cpp) -/

/-- Result of the block parser: parse errors are the `std::runtime_error`s
thrown by `parse_block`; `timeout` is fuel exhaustion (model artifact). -/
inductive PRes (α : Type) : Type where
  | ok (a : α)
  | err (msg : String)
  | timeout

/-- `split_lines` (parser.cpp lines 8-17): the `std::getline` loop. -/
def split_lines (code : String) : List String :=
  if code = "" then []
  else
    let parts := code.splitOn "\n"
    if code.endsWith "\n" then parts.dropLast else parts

/-- `indent_level` (parser.cpp lines 19-27): spaces count 1, tabs count 4. -/
def indentLevelAux : List Char → Nat
  | [] => 0
  | c :: rest =>
    if c = ' ' then 1 + indentLevelAux rest
    else if c = '\t' then 4 + indentLevelAux rest
    else 0

def indent_level (s : String) : Nat := indentLevelAux s.data

/-- Characters trimmed by `parse_block`'s `ltrim`/`rtrim` lambdas. -/
def isTrimChar (c : Char) : Bool := c = ' ' || c = '\t' || c = '\r' || c = '\n'

def ltrimS (s : String) : String := ⟨s.data.dropWhile isTrimChar⟩

def rtrimS (s : String) : String := ⟨(s.data.reverse.dropWhile isTrimChar).reverse⟩

/-- Space-or-tab test, for the narrower `" \t"` trims in parser.cpp. -/
def isHT (c : Char) : Bool := c = ' ' || c = '\t'

def ltrimHT (s : String) : String := ⟨s.data.dropWhile isHT⟩

def rtrimHT (s : String) : String := ⟨(s.data.reverse.dropWhile isHT).reverse⟩

def trimHT (s : String) : String := ltrimHT (rtrimHT s)

/-- List-level prefix test (for `std::string::find` of a substring). -/
def startsWithL (pat l : List Char) : Bool := l.take pat.length = pat

/-- First index of a substring, `std::string::find`. -/
def findSub : List Char → List Char → Option Nat
  | [], pat => if pat.isEmpty then some 0 else none
  | l@(_ :: rest), pat =>
    if startsWithL pat l then some 0 else (findSub rest pat).map (· + 1)

/-- Splitting of a parameter/argument list on commas with `" \t"`-trimming,
skipping empty pieces (the `std::getline(iss, tok, ',')` loops of
parser.cpp). -/
def splitCommaTrim (s : String) : List String :=
  (s.splitOn ",").filterMap fun tok =>
    let t := trimHT tok
    if t = "" then none else some t

/-- Identifier validation of the assignment rule (parser.cpp lines 188-191):
alphanumeric or underscore only. -/
def isIdentChars (l : List Char) : Bool := l.all fun c => c.isAlphanum || c = '_'

/-- First-character test of the assignment rule: `isalpha(left[0]) ||
left[0] == '_'`. -/
def headIsIdentStart (l : List Char) : Bool :=
  match l with
  | [] => false
  | c :: _ => c.isAlpha || c = '_'

/-- Cons a parsed statement onto the rest of the block. -/
def PRes.consNode (n : Node) : PRes (List Node × Nat) → PRes (List Node × Nat)
  | .ok (ns, i) => .ok (n :: ns, i)
  | .err e => .err e
  | .timeout => .timeout

mutual

/-- `parse_block` (parser.cpp lines 33-224), fuel-indexed.  Returns the node
list of one block together with the index of the first line after it. -/
def parseBlock : Nat → List String → Nat → Nat → PRes (List Node × Nat)
  | 0, _, _, _ => .timeout
  | f + 1, lines, idx, base =>
    match lines.get? idx with
    | none => .ok ([], idx)
    | some rawLine =>
      if ltrimS rawLine = "" || (ltrimS rawLine).startsWith "#" then
        parseBlock f lines (idx + 1) base
      else
      let indent := indent_level rawLine
      if indent < base then .ok ([], idx)
      else if indent > base then
        .err ("Unexpected indent at line " ++ natRepr (idx + 1))
      else
      let line := ltrimS (rtrimS rawLine)
      if line.startsWith "say " then
        PRes.consNode (Node.say (line.drop 4)) (parseBlock f lines (idx + 1) base)
      else if line.startsWith "ask " then
        let after := line.drop 4
        match findSub after.data "->".data with
        | none => .err ("Invalid ask syntax at line " ++ natRepr (idx + 1))
        | some pos =>
          let left := after.take pos
          let right := after.drop (pos + 2)
          PRes.consNode (Node.ask (ltrimS left) (ltrimS right))
            (parseBlock f lines (idx + 1) base)
      else if line.startsWith "import " then
        PRes.consNode (Node.imp (line.drop 7)) (parseBlock f lines (idx + 1) base)
      else if line = "return" then
        PRes.consNode (Node.ret none) (parseBlock f lines (idx + 1) base)
      else if line.startsWith "return " then
        PRes.consNode (Node.ret (some (line.drop 7))) (parseBlock f lines (idx + 1) base)
      else if line.startsWith "if " && line.endsWith ":" then
        let cond := (line.drop 3).dropRight 1
        match parseBlock f lines (idx + 1) (base + 4) with
        | .ok (thenBlock, nextIdx) =>
          match parseElse f lines nextIdx base with
          | .ok (elseOpt, currNext) =>
            PRes.consNode (Node.iff cond thenBlock (elseOpt.getD []))
              (parseBlock f lines currNext base)
          | .err e => .err e
          | .timeout => .timeout
        | .err e => .err e
        | .timeout => .timeout
      else if line.startsWith "repeat " && line.length > 7 && line.endsWith " times:" then
        let timesPart := (line.drop 7).dropRight 7
        match parseBlock f lines (idx + 1) (base + 4) with
        | .ok (blk, nxt) =>
          PRes.consNode (Node.rep timesPart blk) (parseBlock f lines nxt base)
        | .err e => .err e
        | .timeout => .timeout
      else if line.startsWith "function " && line.endsWith ":" then
        let header := (line.drop 9).dropRight 1
        match header.data.findIdx? (· = '(') with
        | none => .err ("Invalid function header at line " ++ natRepr (idx + 1))
        | some pos =>
          let name := header.take pos
          let paramsRaw := (header.drop (pos + 1)).dropRight 1
          let params := splitCommaTrim paramsRaw
          match parseBlock f lines (idx + 1) (base + 4) with
          | .ok (blk, nxt) =>
            PRes.consNode (Node.fnDef name params blk) (parseBlock f lines nxt base)
          | .err e => .err e
          | .timeout => .timeout
      else if line = "else:" then
        .err ("Unexpected 'else:' at line " ++ natRepr (idx + 1))
      else if line.startsWith "while " && line.endsWith ":" then
        let cond := (line.drop 6).dropRight 1
        match parseBlock f lines (idx + 1) (base + 4) with
        | .ok (blk, nxt) =>
          PRes.consNode (Node.wh cond blk) (parseBlock f lines nxt base)
        | .err e => .err e
        | .timeout => .timeout
      else if line = "break" then
        PRes.consNode Node.brk (parseBlock f lines (idx + 1) base)
      else if line = "continue" then
        PRes.consNode Node.cont (parseBlock f lines (idx + 1) base)
      else if line.startsWith "for " && (findSub line.data " in ".data).isSome
          && line.endsWith ":" then
        let header := (line.drop 4).dropRight 1
        let (var, iterable) :=
          match findSub header.data " in ".data with
          | some pos => (header.take pos, header.drop (pos + 4))
          | none =>
            -- `" in "` was found in the line but not in the header:
            -- `header.find` is npos, so `substr(0, npos)` is the whole header
            -- and `substr(npos + 4)` wraps to `substr(3)`.
            (header, header.drop 3)
        match parseBlock f lines (idx + 1) (base + 4) with
        | .ok (blk, nxt) =>
          PRes.consNode (Node.forIn var iterable blk) (parseBlock f lines nxt base)
        | .err e => .err e
        | .timeout => .timeout
      else if line = "try:" then
        match parseBlock f lines (idx + 1) (base + 4) with
        | .ok (tryB, nextIdx) =>
          match lines.get? nextIdx with
          | some l2 =>
            if indent_level l2 = base && (split_lines l2).headD "" = "except:" then
              match parseBlock f lines (nextIdx + 1) (base + 4) with
              | .ok (excB, nxt2) =>
                PRes.consNode (Node.tryExc tryB excB) (parseBlock f lines nxt2 base)
              | .err e => .err e
              | .timeout => .timeout
            else
              PRes.consNode (Node.tryExc tryB []) (parseBlock f lines nextIdx base)
          | none =>
            PRes.consNode (Node.tryExc tryB []) (parseBlock f lines nextIdx base)
        | .err e => .err e
        | .timeout => .timeout
      else
        match line.data.findIdx? (· = '=') with
        | some eqPos =>
          if (findSub line.data "==".data).isNone then
            let left := trimHT (line.take eqPos)
            let right := line.drop (eqPos + 1)
            if left ≠ "" && headIsIdentStart left.data && isIdentChars left.data then
              PRes.consNode (Node.assign left right) (parseBlock f lines (idx + 1) base)
            else
              parseCallOrExpr f lines idx base line
          else
            parseCallOrExpr f lines idx base line
        | none => parseCallOrExpr f lines idx base line

/-- The function-call-statement and fallback rules at the end of
`parse_block` (parser.cpp lines 194-221). -/
def parseCallOrExpr (f : Nat) (lines : List String) (idx base : Nat) (line : String) :
    PRes (List Node × Nat) :=
  match line.data.findIdx? (· = '(') with
  | some pos =>
    if line.endsWith ")" then
      let name := trimHT (line.take pos)
      if isIdentChars name.data then
        let argsRaw := (line.drop (pos + 1)).dropRight 1
        PRes.consNode (Node.fnCall name (splitCommaTrim argsRaw))
          (parseBlock f lines (idx + 1) base)
      else
        PRes.consNode (Node.exprStmt line) (parseBlock f lines (idx + 1) base)
    else
      PRes.consNode (Node.exprStmt line) (parseBlock f lines (idx + 1) base)
  | none =>
    PRes.consNode (Node.exprStmt line) (parseBlock f lines (idx + 1) base)

/-- The `elif`/`else` scanning loop inside the `if` rule (parser.cpp lines
86-110).  Returns `some block` when the loop assigned `else_block` (each
`elif` iteration overwrites it; a trailing `else:` overwrites it again),
`none` when it never did, together with the resume index. -/
def parseElse : Nat → List String → Nat → Nat → PRes (Option (List Node) × Nat)
  | 0, _, _, _ => .timeout
  | f + 1, lines, curr, base =>
    match lines.get? curr with
    | none => .ok (none, curr)
    | some l =>
      if indent_level l = base then
        let t := ltrimHT ((split_lines l).headD "")
        if t = "else:" then
          match parseBlock f lines (curr + 1) (base + 4) with
          | .ok (eb, nxt) => .ok (some eb, nxt)
          | .err e => .err e
          | .timeout => .timeout
        else if t.startsWith "elif " && t.endsWith ":" then
          let elifCond := (t.drop 5).dropRight 1
          match parseBlock f lines (curr + 1) (base + 4) with
          | .ok (elifThen, afterElif) =>
            match parseElse f lines afterElif base with
            | .ok (some eb, c2) => .ok (some eb, c2)
            | .ok (none, c2) => .ok (some [Node.iff elifCond elifThen []], c2)
            | .err e => .err e
            | .timeout => .timeout
          | .err e => .err e
          | .timeout => .timeout
        else .ok (none, curr)
      else .ok (none, curr)

end

/-- `Interpreter::parse` (interpreter.cpp lines 120-124). -/
def parseProgram (fuel : Nat) (source : String) : PRes (List Node) :=
  match parseBlock fuel (split_lines source) 0 0 with
  | .ok (ns, _) => .ok ns
  | .err e => .err e
  | .timeout => .timeout

/-! ### Expression-operator semantics (pure parts of the evaluator) -/

def isStrV : Value → Bool
  | .str _ => true
  | _ => false

/-- The `+` combination of `parse_expr` (interpreter.cpp lines 431-439):
string concatenation when either side is a string (stringifying the other),
numeric addition otherwise, reported as a double. -/
def addOp (left right : Value) : Except String Value :=
  if isStrV left || isStrV right then
    .ok (.str (value_to_string left ++ value_to_string right))
  else do
    let a ← value_as_number left
    let b ← value_as_number right
    .ok (.float (a + b))

/-- The `-` combination of `parse_expr` (lines 440-444). -/
def subOp (left right : Value) : Except String Value := do
  let a ← value_as_number left
  let b ← value_as_number right
  .ok (.float (a - b))

/-- The `*` / `/` / `%` combination of `parse_term` (lines 403-416); both
operands are converted through `value_as_number` before the operator is
inspected, and division/modulo by zero are errors. -/
def termOp (op : Char) (left right : Value) : Except String Value := do
  let a ← value_as_number left
  let b ← value_as_number right
  if op = '*' then .ok (.float (a * b))
  else if op = '/' then
    if b = 0 then .error "Division by zero" else .ok (.float (a / b))
  else if op = '%' then
    if b = 0 then .error "Modulo by zero" else .ok (.float (qfmod a b))
  else .ok left

/-- The `^` combination of `parse_power` (lines 390-395). -/
def powOp (left right : Value) : Except String Value := do
  let a ← value_as_number left
  let b ← value_as_number right
  .ok (.float (qpow a b))

/-- `match(c)` (interpreter.cpp lines 169-176): skip whitespace, then either
consume `c` or stay (whitespace already consumed either way). -/
def matchC (c : Char) (l : List Char) : Bool × List Char :=
  let l1 := l.dropWhile isSpaceC
  match l1 with
  | d :: rest => if d = c then (true, rest) else (false, l1)
  | [] => (false, [])

/-- String-literal scan of `parse_primary` (lines 199-222), after the opening
quote: contents (with backslash escapes) and remaining input, or `none` for
an unterminated literal. -/
def scanStringAux (quote : Char) : List Char → Option (List Char × List Char)
  | [] => none
  | c :: rest =>
    if c = quote then some ([], rest)
    else if c = '\\' then
      match rest with
      | [] => none
      | e :: rest2 =>
        let ec : List Char :=
          if e = 'n' then ['\n']
          else if e = 't' then ['\t']
          else if e = 'r' then ['\r']
          else if e = '\\' then ['\\']
          else if e = '\'' then ['\'']
          else if e = '"' then ['"']
          else ['\\', e]
        (scanStringAux quote rest2).map fun p => (ec ++ p.1, p.2)
    else
      (scanStringAux quote rest).map fun p => (c :: p.1, p.2)

/-- Number-literal scan of `parse_primary` (lines 224-252), starting at the
(sign or) first digit: optional `-` (the code tests `s[pos] == '-'`), digits,
optional `.` digits; literals without a dot go through `std::stoll` (overflow
throws, reported as `Invalid number: '...'`), literals with a dot through
`std::stod`. -/
def scanNumber (l : List Char) : Except String (Value × List Char) :=
  let (neg, l1) : Bool × List Char :=
    if l.headD 'x' = '-' then (true, l.tail) else (false, l)
  let (ds, l2) := takeDigits l1
  if l2.headD 'x' = '.' then
    let (fs, l3) := takeDigits l2.tail
    let mag : ℚ := (digitsVal ds : ℚ) + (digitsVal fs : ℚ) / ((10 : ℚ) ^ fs.length)
    .ok (.float (if neg then -mag else mag), l3)
  else
    let v : Int := if neg then -(digitsVal ds : Int) else (digitsVal ds : Int)
    if v < int64Min || v > int64Max then
      .error ("Invalid number: '" ++ (if neg then "-" else "") ++ (⟨ds⟩ : String) ++ "'")
    else
      .ok (.int v, l2)

/-- The constructor bindings of `Interpreter::Interpreter` (interpreter.cpp
lines 107-117), in order: the three constants and the seven builtin markers,
which are ordinary string values. -/
def builtinVars : List (String × Value) :=
  [("None", .nil), ("true", .bool true), ("false", .bool false),
   ("print", .str "__builtin_print"), ("range", .str "__builtin_range"),
   ("len", .str "__builtin_len"), ("str", .str "__builtin_str"),
   ("int", .str "__builtin_int"), ("float", .str "__builtin_float"),
   ("append", .str "__builtin_append")]

/-- Allocate the global environment of a freshly constructed `Interpreter`
(no parent, the constructor's ten bindings). -/
def allocGlobalScope : M Nat := fun st =>
  .ok st.envs.length { st with envs := st.envs ++ [⟨none, builtinVars⟩] }

/-- `functions[name] = entry` on the current interpreter. -/
def defineFunction (name : String) (entry : FunEntry) : M Unit := fun st =>
  .ok () { st with functions := updateF st.functions name entry }

/-- Parameter binding loop of a call (interpreter.cpp lines 353-355). -/
def bindParams (e : Nat) : List String → List Value → M Unit
  | [], _ => pure ()
  | _ :: _, [] => pure ()
  | p :: ps, a :: as => do
    envSet e p a
    bindParams e ps as

/-- `catch (...)`-style recovery for `TryExcept`: run `m`; on a thrown
runtime error resume from the state at throw time with the handler (or
rethrow when there is none). -/
def M.catchWith (m : M α) (handler : Option (M α)) : M α := fun st =>
  match m st with
  | .ok a st1 => .ok a st1
  | .err msg st1 =>
    match handler with
    | some h => h st1
    | none => .err msg st1
  | .timeout => .timeout

/-- Restore the current interpreter's function table and module registry
after running `m` as a different interpreter object (`Interpreter
mod_interp("")` has its own tables, discarded afterwards; the outer
object's tables are untouched whether or not `m` throws). -/
def M.withTables (m : M α) (fsave : List (String × FunEntry))
    (msave : List (String × Nat)) : M α := fun st =>
  match m st with
  | .ok a st1 => .ok a { st1 with functions := fsave, modules := msave }
  | .err e st1 => .err e { st1 with functions := fsave, modules := msave }
  | .timeout => .timeout

/-- Backslash normalization of `Import` (interpreter.cpp line 524) with the
POSIX preferred separator `/`. -/
def normalizeSep (s : String) : String :=
  ⟨s.data.map fun c => if c = '\\' then '/' else c⟩

/-- `fs::path(root) / rel` on POSIX. -/
def pathJoin (root rel : String) : String :=
  if rel.startsWith "/" then rel
  else if root.endsWith "/" then root ++ rel
  else root ++ "/" ++ rel

/-- Module-path resolution of `Import` (interpreter.cpp lines 523-527):
normalize separators, resolve against `stdlib_path` when configured (the
current directory otherwise), and append `.bloa` unconditionally. -/
def resolveModule (stdlibPath name : String) : String :=
  let m := normalizeSep name
  if stdlibPath = "" then m ++ ".bloa" else pathJoin stdlibPath m ++ ".bloa"

/-- File-system lookup (`fs::exists` + reading the file). -/
def lookupFs : List (String × String) → String → Option String
  | [], _ => none
  | (k, v) :: rest, p => if k = p then some v else lookupFs rest p

/-! ### The interpreter (interpreter.cpp lines 151-575), fuel-indexed -/

mutual

/-- `Interpreter::execute_block` (lines 461-575): statements strictly in
order. -/
def execBlock : Nat → Ctx → List Node → Nat → M Unit
  | 0, _, _, _ => M.stop
  | f + 1, ctx, nodes, env =>
    match nodes with
    | [] => pure ()
    | n :: rest => do
      execNode f ctx n env
      execBlock f ctx rest env
termination_by structural fuel _ _ _ => fuel

/-- One dispatch step of `execute_block`'s per-node `if/else` chain.  `Break`
and `Continue` have no case in the chain and fall into the final `else`
(`throw std::runtime_error("Unknown AST node")`, line 569). -/
def execNode : Nat → Ctx → Node → Nat → M Unit
  | 0, _, _, _ => M.stop
  | f + 1, ctx, node, env =>
    match node with
    | .say e => do
      let v ← evalExpr f ctx e env
      emit (value_to_string v ++ "\n")
    | .ask prompt var => do
      let p ← evalExpr f ctx prompt env
      emit (value_to_string p ++ " ")
      let input ← readLine
      envSet env var (askConvert input)
    | .assign name e => do
      let v ← evalExpr f ctx e env
      envSet env name v
    | .iff cond tb eb => do
      let c ← evalExpr f ctx cond env
      if value_is_true c then do
        let child ← allocScope (some env)
        execBlock f ctx tb child
      else if eb.isEmpty then pure ()
      else do
        let child ← allocScope (some env)
        execBlock f ctx eb child
    | .rep timesExpr blk => do
      let tv ← evalExpr f ctx timesExpr env
      let q ← liftNum tv
      let times := truncToInt q
      if times < 0 then M.throwErr "repeat count must be non-negative"
      else repeatLoop f ctx blk env 0 times
    | .fnDef name params blk => defineFunction name ⟨params, blk, env⟩
    | .fnCall name args => do
      let _ ← evalExpr f ctx (name ++ "(" ++ String.intercalate ", " args ++ ")") env
      pure ()
    | .ret _ => pure ()
    | .imp name => execImport f ctx name env
    | .exprStmt e => do
      let _ ← evalExpr f ctx e env
      pure ()
    | .wh cond blk => whileLoop f ctx cond blk env
    | .brk => M.throwErr "Unknown AST node"
    | .cont => M.throwErr "Unknown AST node"
    | .forIn var iterable blk => do
      let itv ← evalExpr f ctx iterable env
      match itv with
      | .list items => forInLoop f ctx var blk env items
      | _ => M.throwErr "For-in requires a list"
    | .tryExc tb eb =>
      M.catchWith
        (do
          let child ← allocScope (some env)
          execBlock f ctx tb child)
        (if eb.isEmpty then none
         else some (do
          let child ← allocScope (some env)
          execBlock f ctx eb child))
termination_by structural fuel _ _ _ => fuel

/-- The `While` loop (lines 541-546): re-evaluate the condition before each
iteration, run each iteration in a fresh child scope. -/
def whileLoop : Nat → Ctx → String → List Node → Nat → M Unit
  | 0, _, _, _, _ => M.stop
  | f + 1, ctx, cond, blk, env => do
    let c ← evalExpr f ctx cond env
    if value_is_true c then do
      let child ← allocScope (some env)
      execBlock f ctx blk child
      whileLoop f ctx cond blk env
    else pure ()
termination_by structural fuel _ _ _ _ => fuel

/-- The `Repeat` loop (lines 500-504): iteration `j` binds loop-local
`count` to `j + 1` in a fresh child scope. -/
def repeatLoop : Nat → Ctx → List Node → Nat → Int → Int → M Unit
  | 0, _, _, _, _, _ => M.stop
  | f + 1, ctx, blk, env, j, times =>
    if j < times then do
      let child ← allocScope (some env)
      envSet child "count" (Value.int (j + 1))
      execBlock f ctx blk child
      repeatLoop f ctx blk env (j + 1) times
    else pure ()
termination_by structural fuel _ _ _ _ _ => fuel

/-- The `ForIn` loop (lines 552-557): each element in a fresh child scope. -/
def forInLoop : Nat → Ctx → String → List Node → Nat → List Value → M Unit
  | 0, _, _, _, _, _ => M.stop
  | f + 1, ctx, var, blk, env, items =>
    match items with
    | [] => pure ()
    | item :: rest => do
      let child ← allocScope (some env)
      envSet child var item
      execBlock f ctx blk child
      forInLoop f ctx var blk env rest
termination_by structural fuel _ _ _ _ _ => fuel

/-- `Import` (lines 522-538): resolve, read, parse, execute against a fresh
child of the importing interpreter's global environment but with a freshly
constructed interpreter object (`Interpreter mod_interp("")`), then register
the module environment and bind a placeholder string. -/
def execImport : Nat → Ctx → String → Nat → M Unit
  | 0, _, _, _ => M.stop
  | f + 1, ctx, name, env => do
    let p := resolveModule ctx.stdlibPath name
    let st ← getState
    match lookupFs st.fs p with
    | none => M.throwErr ("Module not found: '" ++ name ++ "'")
    | some code =>
      match parseProgram f code with
      | .err e => M.throwErr e
      | .timeout => M.stop
      | .ok modNodes => do
        let modEnv ← allocScope (some ctx.globalEnv)
        let modGlobal ← allocGlobalScope
        let _ ← M.withTables
          (do
            setFunctions []
            setModules []
            execBlock f ⟨modGlobal, ""⟩ modNodes modEnv)
          st.functions st.modules
        let st2 ← getState
        setModules (updateMod st2.modules name modEnv)
        envSet env name (Value.str ("<module '" ++ name ++ "'>"))
termination_by structural fuel _ _ _ => fuel

/-- `Interpreter::eval_expr` (lines 457-459): trim, then run the expression
parser; trailing unparsed input is ignored. -/
def evalExpr : Nat → Ctx → String → Nat → M Value
  | 0, _, _, _ => M.stop
  | f + 1, ctx, s, env => do
    let r ← parseExprE f ctx env (trimC s.data)
    pure r.1
termination_by structural fuel _ _ _ => fuel

/-- `parse_expr` (lines 424-450). -/
def parseExprE : Nat → Ctx → Nat → List Char → M (Value × List Char)
  | 0, _, _, _ => M.stop
  | f + 1, ctx, env, l => do
    let r ← parseTermE f ctx env l
    exprLoop f ctx env r.1 r.2
termination_by structural fuel _ _ _ => fuel

/-- The `+`/`-` loop of `parse_expr`. -/
def exprLoop : Nat → Ctx → Nat → Value → List Char → M (Value × List Char)
  | 0, _, _, _, _ => M.stop
  | f + 1, ctx, env, left, l =>
    let l1 := l.dropWhile isSpaceC
    match l1 with
    | c :: rest =>
      if c = '+' || c = '-' then do
        let r ← parseTermE f ctx env rest
        match (if c = '+' then addOp left r.1 else subOp left r.1) with
        | .ok v => exprLoop f ctx env v r.2
        | .error e => M.throwErr e
      else pure (left, l1)
    | [] => pure (left, [])
termination_by structural fuel _ _ _ _ => fuel

/-- `parse_term` (lines 399-422). -/
def parseTermE : Nat → Ctx → Nat → List Char → M (Value × List Char)
  | 0, _, _, _ => M.stop
  | f + 1, ctx, env, l => do
    let r ← parsePowerE f ctx env l
    termLoop f ctx env r.1 r.2
termination_by structural fuel _ _ _ => fuel

/-- The `*`/`/`/`%` loop of `parse_term`. -/
def termLoop : Nat → Ctx → Nat → Value → List Char → M (Value × List Char)
  | 0, _, _, _, _ => M.stop
  | f + 1, ctx, env, left, l =>
    let l1 := l.dropWhile isSpaceC
    match l1 with
    | c :: rest =>
      if c = '*' || c = '/' || c = '%' then do
        let r ← parsePowerE f ctx env rest
        match termOp c left r.1 with
        | .ok v => termLoop f ctx env v r.2
        | .error e => M.throwErr e
      else pure (left, l1)
    | [] => pure (left, [])
termination_by structural fuel _ _ _ _ => fuel

/-- `parse_power` (lines 388-397). -/
def parsePowerE : Nat → Ctx → Nat → List Char → M (Value × List Char)
  | 0, _, _, _ => M.stop
  | f + 1, ctx, env, l => do
    let r ← parsePrimaryE f ctx env l
    powerLoop f ctx env r.1 r.2
termination_by structural fuel _ _ _ => fuel

/-- The `^` loop of `parse_power`. -/
def powerLoop : Nat → Ctx → Nat → Value → List Char → M (Value × List Char)
  | 0, _, _, _, _ => M.stop
  | f + 1, ctx, env, left, l =>
    match matchC '^' l with
    | (true, rest) => do
      let r ← parsePrimaryE f ctx env rest
      match powOp left r.1 with
      | .ok v => powerLoop f ctx env v r.2
      | .error e => M.throwErr e
    | (false, l1) => pure (left, l1)
termination_by structural fuel _ _ _ _ => fuel

/-- `parse_primary` (lines 178-386). -/
def parsePrimaryE : Nat → Ctx → Nat → List Char → M (Value × List Char)
  | 0, _, _, _ => M.stop
  | f + 1, ctx, env, l =>
    let l1 := l.dropWhile isSpaceC
    match l1 with
    | [] => M.throwErr "Unexpected end of expression"
    | c :: rest =>
      if c = '(' then do
        let r ← parseExprE f ctx env rest
        match matchC ')' r.2 with
        | (true, l3) => pure (r.1, l3)
        | (false, _) => M.throwErr "Expected ')'"
      else if c = '[' then
        match matchC ']' rest with
        | (true, l2) => pure (.list [], l2)
        | (false, l2) => listLoop f ctx env [] l2
      else if c = '"' || c = '\'' then
        match scanStringAux c rest with
        | some (out, l2) => pure (.str ⟨out⟩, l2)
        | none => M.throwErr "Unterminated string literal"
      else if c.isDigit || (c = '-' && (rest.headD ' ').isDigit) then
        match scanNumber l1 with
        | .ok (v, l2) => pure (v, l2)
        | .error e => M.throwErr e
      else if identStart c then
        let id : String := ⟨c :: rest.takeWhile identCont⟩
        let l2 := rest.dropWhile identCont
        if id = "true" then pure (.bool true, l2)
        else if id = "false" then pure (.bool false, l2)
        else if id = "None" then pure (.nil, l2)
        else do
          let st ← getState
          match envGet st env id with
          | none => M.throwErr ("Name '" ++ id ++ "' is not defined")
          | some baseVal => suffixLoop f ctx env id baseVal l2
      else M.throwErr ("Unexpected token: '" ++ (⟨[c]⟩ : String) ++ "'")
termination_by structural fuel _ _ _ => fuel

/-- List-literal element loop of `parse_primary` (lines 188-197). -/
def listLoop : Nat → Ctx → Nat → List Value → List Char → M (Value × List Char)
  | 0, _, _, _, _ => M.stop
  | f + 1, ctx, env, acc, l => do
    let r ← parseExprE f ctx env l
    match matchC ']' r.2 with
    | (true, l2) => pure (.list (acc ++ [r.1]), l2)
    | (false, l1) =>
      match matchC ',' l1 with
      | (true, l2) => listLoop f ctx env (acc ++ [r.1]) l2
      | (false, _) => M.throwErr "Expected ',' or ']' in list literal"
termination_by structural fuel _ _ _ _ => fuel

/-- The call-or-index suffix loop of `parse_primary` (lines 270-380),
chaining left-to-right on the resolved value of identifier `id`. -/
def suffixLoop : Nat → Ctx → Nat → String → Value → List Char → M (Value × List Char)
  | 0, _, _, _, _, _ => M.stop
  | f + 1, ctx, env, id, baseVal, l =>
    match matchC '(' l with
    | (true, rest) => do
      let r ← parseArgs f ctx env rest
      let v ←
        match baseVal with
        | .str marker =>
          match tryBuiltin marker r.1 with
          | some act => act
          | none => callUser f ctx id r.1
        | _ => callUser f ctx id r.1
      suffixLoop f ctx env id v r.2
    | (false, l1) =>
      match matchC '[' l1 with
      | (true, rest) =>
        match baseVal with
        | .list items => do
          let r ← parseExprE f ctx env rest
          match matchC ']' r.2 with
          | (false, _) => M.throwErr "Expected ']'"
          | (true, l3) => do
            let q ← liftNum r.1
            let idx := truncToInt q
            if idx < 0 || idx ≥ (items.length : Int) then
              M.throwErr ("List index " ++ intRepr idx ++ " out of range [0, "
                ++ natRepr items.length ++ ")")
            else
              suffixLoop f ctx env id (items.getD idx.toNat .nil) l3
        | _ => M.throwErr "Object is not subscriptable (not a list)"
      | (false, l2) => pure (baseVal, l2)
termination_by structural fuel _ _ _ _ _ => fuel

/-- Argument-list parse of a call suffix (lines 274-281): `()` or
comma-separated expressions. -/
def parseArgs : Nat → Ctx → Nat → List Char → M (List Value × List Char)
  | 0, _, _, _ => M.stop
  | f + 1, ctx, env, l =>
    match matchC ')' l with
    | (true, l1) => pure ([], l1)
    | (false, l1) => parseArgsLoop f ctx env [] l1
termination_by structural fuel _ _ _ => fuel

/-- The element loop of `parseArgs`. -/
def parseArgsLoop : Nat → Ctx → Nat → List Value → List Char → M (List Value × List Char)
  | 0, _, _, _, _ => M.stop
  | f + 1, ctx, env, acc, l => do
    let r ← parseExprE f ctx env l
    match matchC ')' r.2 with
    | (true, l2) => pure (acc ++ [r.1], l2)
    | (false, l1) =>
      match matchC ',' l1 with
      | (true, l2) => parseArgsLoop f ctx env (acc ++ [r.1]) l2
      | (false, _) => M.throwErr "Expected ',' or ')' in argument list"
termination_by structural fuel _ _ _ _ => fuel

/-- User-function invocation (lines 342-360): look up by the identifier's
name, check arity, bind parameters in a fresh scope parented at the captured
defining environment, execute the body, and produce `Nil` (the `catch (const
std::string&)` clause is dead code: nothing throws `std::string`). -/
def callUser : Nat → Ctx → String → List Value → M Value
  | 0, _, _, _ => M.stop
  | f + 1, ctx, id, args => do
    let st ← getState
    match lookupF st.functions id with
    | none => M.throwErr ("'" ++ id ++ "' is not callable")
    | some entry =>
      if entry.params.length ≠ args.length then
        M.throwErr ("Function '" ++ id ++ "' expects " ++ natRepr entry.params.length
          ++ " arguments but got " ++ natRepr args.length)
      else do
        let callEnv ← allocScope (some entry.defEnv)
        bindParams callEnv entry.params args
        execBlock f ctx entry.block callEnv
        pure Value.nil
termination_by structural fuel _ _ _ => fuel

end

/-- The state of a freshly constructed top-level `Interpreter`: one global
scope holding the constructor's bindings, empty tables, pending console
input, and the file system. -/
def initSt (input : List String) (fs : List (String × String)) : St :=
  ⟨[⟨none, builtinVars⟩], [], [], "", input, fs⟩

/-- Context of the top-level interpreter object. -/
def initCtx (stdlib : String) : Ctx := ⟨0, stdlib⟩

/-! ### Observation helpers used by the theorems -/

/-- State of a normally completed run. -/
def okSt : Outcome α → Option St
  | .ok _ st => some st
  | _ => none

/-- Message of a thrown runtime error. -/
def errMsgOf : Outcome α → Option String
  | .err m _ => some m
  | _ => none

/-- Property of an outcome: if it completed normally, its value is `a`. -/
def retValIs (o : Outcome α) (a : α) : Prop :=
  match o with
  | .ok v _ => v = a
  | _ => True

/-- Well-formed store: every scope's parent was allocated before it.  This
holds in every reachable state because `allocScope` only hands out parents
that already exist. -/
def WFSt (st : St) : Prop :=
  ∀ i sc, st.envs.get? i = some sc → ∀ p, sc.parent = some p → p < i

/-- A state whose global scope additionally binds the variable `lst` to a
given list, for the `append` non-mutation program. -/
def stWithLst (L : List Value) : St :=
  { (initSt [] []) with envs := [⟨none, builtinVars ++ [("lst", Value.list L)]⟩] }

/-- The state `stWithLst L` left behind by `lst2 = append(lst, 9)`. -/
def stWithLst2 (L : List Value) : St :=
  { (initSt [] []) with
    envs := [⟨none, builtinVars ++
      [("lst", Value.list L), ("lst2", Value.list (L ++ [Value.int 9]))]⟩] }

/-- A state with a user function `f(x)` whose body is `return x`, and a
global variable `f` (the expression evaluator resolves the identifier
through the environment before consulting the function table). -/
def stRetFun : St :=
  { (initSt [] []) with
    envs := [⟨none, builtinVars ++ [("f", Value.nil)]⟩],
    functions := [("f", ⟨["x"], [Node.ret (some "x")], 0⟩)] }

/-- The state `stRetFun` leaves behind after evaluating `f(1)`: one extra
call scope holding the parameter binding. -/
def stRetFunAfter : St :=
  { stRetFun with
    envs := [⟨none, builtinVars ++ [("f", Value.nil)]⟩,
             ⟨some 0, [("x", Value.int 1)]⟩] }

/-- State left by `execBlock` running an `if 1:` whose body assigns `x = 2`,
from `initSt`: the child scope holds the binding, the global scope is
untouched. -/
def stIfAssign : St :=
  { (initSt [] []) with envs := [⟨none, builtinVars⟩, ⟨some 0, [("x", Value.int 2)]⟩] }

/-- Scope-store discipline between two states: the store only grows, and
every already-allocated scope whose index is not in the exception list `ex`
is untouched. -/
def Preserves (ex : List Nat) (st st' : St) : Prop :=
  st.envs.length ≤ st'.envs.length ∧
  ∀ i, i < st.envs.length → i ∉ ex → st'.envs.get? i = st.envs.get? i

/-- Lift of `Preserves` to an interpreter outcome (errors carry the state at
throw time, so they are constrained too; `timeout` is a model artifact). -/
def OutcomePreserves (ex : List Nat) (st : St) : Outcome α → Prop
  | .ok _ st' => Preserves ex st st'
  | .err _ st' => Preserves ex st st'
  | .timeout => True

/-- Frame property of an interpreter action: run from any state, it can
write only to scopes in `ex` or to scopes it allocates itself. -/
def Frames (ex : List Nat) (m : M α) : Prop :=
  ∀ st, OutcomePreserves ex st (m st)

/-! ### Basic monad lemmas -/

theorem M.bind_eq (m : M α) (k : α → M β) : m >>= k = M.bind m k := rfl

theorem M.pure_eq (a : α) : (Pure.pure a : M α) = M.pure a := rfl

theorem retValIs_pure (a : α) (st : St) : retValIs ((Pure.pure a : M α) st) a := rfl

theorem exc_ok_bind (a : α) (f : α → Except ε β) :
    (Except.ok a : Except ε α) >>= f = f a := rfl

theorem retValIs_bind (m : M α) (k : α → M β) (b : β)
    (h : ∀ a st, retValIs (k a st) b) (st : St) : retValIs ((m >>= k) st) b := by
  rw [M.bind_eq]
  unfold M.bind
  cases m st with
  | ok a st' => exact h a st'
  | err msg st' => trivial
  | timeout => trivial

/-- `normalizeSep` is idempotent (a `/` is never a `\`). -/
theorem normalizeSep_idem (s : String) : normalizeSep (normalizeSep s) = normalizeSep s := by
  unfold normalizeSep
  cases s with
  | mk data =>
    simp only [List.map_map]
    congr 1
    apply List.map_congr_left
    intro c _
    by_cases hc : c = '\\' <;> simp [hc]

/-! ### Frame-property infrastructure (for C3) -/

theorem Preserves_refl (ex : List Nat) (st : St) : Preserves ex st st :=
  ⟨le_refl _, fun _ _ _ => rfl⟩

theorem Preserves_trans {ex : List Nat} {st st₁ st₂ : St}
    (h1 : Preserves ex st st₁) (h2 : Preserves ex st₁ st₂) : Preserves ex st st₂ :=
  ⟨le_trans h1.1 h2.1,
   fun i hi hex => (h2.2 i (lt_of_lt_of_le hi h1.1) hex).trans (h1.2 i hi hex)⟩

theorem Preserves_mono {ex ex' : List Nat} (hsub : ∀ i, i ∈ ex → i ∈ ex') {st st' : St}
    (h : Preserves ex st st') : Preserves ex' st st' :=
  ⟨h.1, fun i hi hex => h.2 i hi (fun hmem => hex (hsub i hmem))⟩

theorem Preserves_of_envs_eq {ex : List Nat} {st st' : St} (h : st'.envs = st.envs) :
    Preserves ex st st' :=
  ⟨by rw [h], fun i _ _ => by rw [h]⟩

theorem Frames_mono {ex ex' : List Nat} (hsub : ∀ i, i ∈ ex → i ∈ ex') {m : M α}
    (h : Frames ex m) : Frames ex' m := by
  intro st
  have h1 := h st
  unfold OutcomePreserves at h1 ⊢
  cases hms : m st with
  | ok a st' =>
    rw [hms] at h1
    exact Preserves_mono hsub h1
  | err msg st' =>
    rw [hms] at h1
    exact Preserves_mono hsub h1
  | timeout => trivial

theorem Frames_weak {ex : List Nat} {m : M α} (h : Frames [] m) : Frames ex m :=
  Frames_mono (fun i hmem => absurd hmem (List.not_mem_nil i)) h

theorem Frames_pure (ex : List Nat) (a : α) : Frames ex (Pure.pure a : M α) :=
  fun st => Preserves_refl ex st

theorem Frames_throwErr (ex : List Nat) (msg : String) :
    Frames ex (M.throwErr msg : M α) :=
  fun st => Preserves_refl ex st

theorem Frames_stop (ex : List Nat) : Frames ex (M.stop : M α) :=
  fun _ => trivial

theorem Frames_bind {ex : List Nat} {m : M α} {k : α → M β}
    (hm : Frames ex m) (hk : ∀ a, Frames ex (k a)) : Frames ex (m >>= k) := by
  intro st
  rw [M.bind_eq]
  unfold M.bind OutcomePreserves
  have h1 := hm st
  unfold OutcomePreserves at h1
  cases hms : m st with
  | ok a st₁ =>
    rw [hms] at h1
    dsimp only
    have h2 := hk a st₁
    unfold OutcomePreserves at h2
    cases hks : k a st₁ with
    | ok b st₂ =>
      rw [hks] at h2
      exact Preserves_trans h1 h2
    | err msg st₂ =>
      rw [hks] at h2
      exact Preserves_trans h1 h2
    | timeout => trivial
  | err msg st₁ =>
    rw [hms] at h1
    exact h1
  | timeout => trivial

theorem Frames_emit (ex : List Nat) (s : String) : Frames ex (emit s) :=
  fun _ => Preserves_of_envs_eq rfl

theorem Frames_readLine (ex : List Nat) : Frames ex readLine := by
  intro st
  unfold readLine OutcomePreserves
  cases st.input with
  | nil => exact Preserves_refl ex st
  | cons l rest => exact Preserves_of_envs_eq rfl

theorem Frames_getState (ex : List Nat) : Frames ex getState :=
  fun st => Preserves_refl ex st

theorem Frames_setFunctions (ex : List Nat) (f : List (String × FunEntry)) :
    Frames ex (setFunctions f) :=
  fun _ => Preserves_of_envs_eq rfl

theorem Frames_setModules (ex : List Nat) (m : List (String × Nat)) :
    Frames ex (setModules m) :=
  fun _ => Preserves_of_envs_eq rfl

theorem Frames_defineFunction (ex : List Nat) (n : String) (entry : FunEntry) :
    Frames ex (defineFunction n entry) :=
  fun _ => Preserves_of_envs_eq rfl

theorem Frames_liftNum (ex : List Nat) (v : Value) : Frames ex (liftNum v) := by
  unfold liftNum
  cases value_as_number v with
  | ok q => exact Frames_pure ex q
  | error e => exact Frames_throwErr ex e

theorem Frames_envSet (ex : List Nat) (e : Nat) (n : String) (v : Value)
    (he : e ∈ ex) : Frames ex (envSet e n v) := by
  intro st
  unfold envSet OutcomePreserves
  cases hsc : st.envs.get? e with
  | none => exact Preserves_refl ex st
  | some sc =>
    dsimp only
    by_cases hc : (isConstName n && (lookupA sc.vars n).isSome) = true
    · rw [if_pos hc]
      exact Preserves_refl ex st
    · rw [if_neg hc]
      refine ⟨by simp, fun i hi hex => ?_⟩
      have hne : e ≠ i := fun h => hex (h ▸ he)
      simp only [List.get?_eq_getElem?]
      exact List.getElem?_set_ne hne

theorem Frames_allocScope (ex : List Nat) (p : Option Nat) :
    Frames ex (allocScope p) := by
  intro st
  unfold allocScope OutcomePreserves
  refine ⟨by simp, fun i hi _ => ?_⟩
  simp only [List.get?_eq_getElem?]
  exact List.getElem?_append_left hi

theorem Frames_allocGlobalScope (ex : List Nat) : Frames ex allocGlobalScope := by
  intro st
  unfold allocGlobalScope OutcomePreserves
  refine ⟨by simp, fun i hi _ => ?_⟩
  simp only [List.get?_eq_getElem?]
  exact List.getElem?_append_left hi

/-- Key composition step: a computation that allocates a fresh scope and then
only writes to that scope (besides `ex`) preserves everything outside `ex`,
because the fresh scope's index is past every pre-existing one. -/
theorem Frames_allocBind {ex : List Nat} {p : Option Nat} {k : Nat → M α}
    (hk : ∀ c, Frames (c :: ex) (k c)) : Frames ex (allocScope p >>= k) := by
  intro st
  rw [M.bind_eq]
  unfold M.bind
  have halloc : allocScope p st
      = .ok st.envs.length { st with envs := st.envs ++ [⟨p, []⟩] } := rfl
  rw [halloc]
  dsimp only
  set st₁ : St := { st with envs := st.envs ++ [⟨p, []⟩] } with hst₁
  have h01 : Preserves (st.envs.length :: ex) st st₁ := by
    refine ⟨by simp [hst₁], fun i hi _ => ?_⟩
    simp only [hst₁, List.get?_eq_getElem?]
    exact List.getElem?_append_left hi
  have h2 := hk st.envs.length st₁
  unfold OutcomePreserves at h2 ⊢
  have hstep : ∀ st₂ : St, Preserves (st.envs.length :: ex) st₁ st₂ →
      Preserves ex st st₂ := by
    intro st₂ h12
    have h02 := Preserves_trans h01 h12
    refine ⟨h02.1, fun i hi hex => ?_⟩
    refine h02.2 i hi ?_
    intro hmem
    rcases List.mem_cons.mp hmem with rfl | hmem'
    · exact absurd hi (lt_irrefl _)
    · exact hex hmem'
  cases hks : k st.envs.length st₁ with
  | ok b st₂ =>
    rw [hks] at h2
    dsimp only
    exact hstep st₂ h2
  | err msg st₂ =>
    rw [hks] at h2
    dsimp only
    exact hstep st₂ h2
  | timeout => trivial

/-- Same composition step for the fresh global environment an `Import`
constructs. -/
theorem Frames_allocGlobalBind {ex : List Nat} {k : Nat → M α}
    (hk : ∀ c, Frames (c :: ex) (k c)) : Frames ex (allocGlobalScope >>= k) := by
  intro st
  rw [M.bind_eq]
  unfold M.bind
  have halloc : allocGlobalScope st
      = .ok st.envs.length { st with envs := st.envs ++ [⟨none, builtinVars⟩] } := rfl
  rw [halloc]
  dsimp only
  set st₁ : St := { st with envs := st.envs ++ [⟨none, builtinVars⟩] } with hst₁
  have h01 : Preserves (st.envs.length :: ex) st st₁ := by
    refine ⟨by simp [hst₁], fun i hi _ => ?_⟩
    simp only [hst₁, List.get?_eq_getElem?]
    exact List.getElem?_append_left hi
  have h2 := hk st.envs.length st₁
  unfold OutcomePreserves at h2 ⊢
  have hstep : ∀ st₂ : St, Preserves (st.envs.length :: ex) st₁ st₂ →
      Preserves ex st st₂ := by
    intro st₂ h12
    have h02 := Preserves_trans h01 h12
    refine ⟨h02.1, fun i hi hex => ?_⟩
    refine h02.2 i hi ?_
    intro hmem
    rcases List.mem_cons.mp hmem with rfl | hmem'
    · exact absurd hi (lt_irrefl _)
    · exact hex hmem'
  cases hks : k st.envs.length st₁ with
  | ok b st₂ =>
    rw [hks] at h2
    dsimp only
    exact hstep st₂ h2
  | err msg st₂ =>
    rw [hks] at h2
    dsimp only
    exact hstep st₂ h2
  | timeout => trivial

theorem Frames_catchWith {ex : List Nat} {m : M α} {handler : Option (M α)}
    (hm : Frames ex m) (hh : ∀ h, handler = some h → Frames ex h) :
    Frames ex (M.catchWith m handler) := by
  intro st
  unfold M.catchWith OutcomePreserves
  have h1 := hm st
  unfold OutcomePreserves at h1
  cases hms : m st with
  | ok a st₁ =>
    rw [hms] at h1
    dsimp only
    exact h1
  | err msg st₁ =>
    rw [hms] at h1
    dsimp only
    cases hhd : handler with
    | none =>
      dsimp only
      exact h1
    | some h =>
      dsimp only
      have h2 := hh h hhd st₁
      unfold OutcomePreserves at h2
      cases hhs : h st₁ with
      | ok b st₂ =>
        rw [hhs] at h2
        dsimp only
        exact Preserves_trans h1 h2
      | err msg₂ st₂ =>
        rw [hhs] at h2
        dsimp only
        exact Preserves_trans h1 h2
      | timeout => trivial
  | timeout => trivial

theorem Frames_withTables {ex : List Nat} {m : M α} (hm : Frames ex m)
    (fsave : List (String × FunEntry)) (msave : List (String × Nat)) :
    Frames ex (M.withTables m fsave msave) := by
  intro st
  unfold M.withTables OutcomePreserves
  have h1 := hm st
  unfold OutcomePreserves at h1
  cases hms : m st with
  | ok a st₁ =>
    rw [hms] at h1
    dsimp only
    exact Preserves_trans h1 (Preserves_of_envs_eq rfl)
  | err msg st₁ =>
    rw [hms] at h1
    dsimp only
    exact Preserves_trans h1 (Preserves_of_envs_eq rfl)
  | timeout => trivial

theorem Frames_bindParams (ex : List Nat) (e : Nat) (he : e ∈ ex) :
    ∀ (ps : List String) (as_ : List Value), Frames ex (bindParams e ps as_) := by
  intro ps
  induction ps with
  | nil => intro as_; exact Frames_pure ex ()
  | cons p ps ih =>
    intro as_
    cases as_ with
    | nil => exact Frames_pure ex ()
    | cons a rest => exact Frames_bind (Frames_envSet ex e p a he) (fun _ => ih rest)

theorem Frames_child {c : Nat} {ex : List Nat} {m : M α} (h : Frames [c] m) :
    Frames (c :: ex) m :=
  Frames_mono
    (fun i hi => by
      rw [List.mem_singleton] at hi
      subst hi
      exact List.mem_cons_self _ _)
    h

theorem Frames_tryBuiltin (marker : String) (args : List Value) (act : M Value)
    (h : tryBuiltin marker args = some act) : Frames [] act := by
  unfold tryBuiltin at h
  split_ifs at h <;> rw [Option.some.injEq] at h <;> subst h
  · exact Frames_bind (Frames_emit _ _) (fun _ => Frames_pure _ _)
  · rcases args with _ | ⟨a, _ | ⟨b, _ | _⟩⟩
    · exact Frames_throwErr _ _
    · exact Frames_throwErr _ _
    · exact Frames_bind (Frames_liftNum _ _)
        (fun _ => Frames_bind (Frames_liftNum _ _) (fun _ => Frames_pure _ _))
    · exact Frames_throwErr _ _
  · rcases args with _ | ⟨a, _ | _⟩
    · exact Frames_throwErr _ _
    · cases a <;> first
        | exact Frames_pure _ _
        | exact Frames_throwErr _ _
    · exact Frames_throwErr _ _
  · rcases args with _ | ⟨a, _ | _⟩
    · exact Frames_throwErr _ _
    · exact Frames_pure _ _
    · exact Frames_throwErr _ _
  · rcases args with _ | ⟨a, _ | _⟩
    · exact Frames_throwErr _ _
    · exact Frames_bind (Frames_liftNum _ _) (fun _ => Frames_pure _ _)
    · exact Frames_throwErr _ _
  · rcases args with _ | ⟨a, _ | _⟩
    · exact Frames_throwErr _ _
    · exact Frames_bind (Frames_liftNum _ _) (fun _ => Frames_pure _ _)
    · exact Frames_throwErr _ _
  · rcases args with _ | ⟨a, _ | ⟨b, _ | _⟩⟩
    · exact Frames_throwErr _ _
    · exact Frames_throwErr _ _
    · cases a <;> first
        | exact Frames_pure _ _
        | exact Frames_throwErr _ _
    · exact Frames_throwErr _ _

/-- Master frame property of the interpreter, by induction on fuel: the
statement executor can write only to the scope it executes in (besides
scopes it allocates itself), the loop helpers and the whole expression
evaluator write only to freshly allocated scopes. -/
theorem frames_interp : ∀ fuel : Nat,
    (∀ ctx nodes env, Frames [env] (execBlock fuel ctx nodes env))
    ∧ (∀ ctx node env, Frames [env] (execNode fuel ctx node env))
    ∧ (∀ ctx cond blk env, Frames [] (whileLoop fuel ctx cond blk env))
    ∧ (∀ ctx blk env j t, Frames [] (repeatLoop fuel ctx blk env j t))
    ∧ (∀ ctx var blk env items, Frames [] (forInLoop fuel ctx var blk env items))
    ∧ (∀ ctx name env, Frames [env] (execImport fuel ctx name env))
    ∧ (∀ ctx s env, Frames [] (evalExpr fuel ctx s env))
    ∧ (∀ ctx env l, Frames [] (parseExprE fuel ctx env l))
    ∧ (∀ ctx env left l, Frames [] (exprLoop fuel ctx env left l))
    ∧ (∀ ctx env l, Frames [] (parseTermE fuel ctx env l))
    ∧ (∀ ctx env left l, Frames [] (termLoop fuel ctx env left l))
    ∧ (∀ ctx env l, Frames [] (parsePowerE fuel ctx env l))
    ∧ (∀ ctx env left l, Frames [] (powerLoop fuel ctx env left l))
    ∧ (∀ ctx env l, Frames [] (parsePrimaryE fuel ctx env l))
    ∧ (∀ ctx env acc l, Frames [] (listLoop fuel ctx env acc l))
    ∧ (∀ ctx env id base l, Frames [] (suffixLoop fuel ctx env id base l))
    ∧ (∀ ctx env l, Frames [] (parseArgs fuel ctx env l))
    ∧ (∀ ctx env acc l, Frames [] (parseArgsLoop fuel ctx env acc l))
    ∧ (∀ ctx id args, Frames [] (callUser fuel ctx id args)) := by
  intro fuel
  induction fuel with
  | zero =>
    refine ⟨?_, ?_, ?_, ?_, ?_, ?_, ?_, ?_, ?_, ?_, ?_, ?_, ?_, ?_, ?_, ?_, ?_, ?_, ?_⟩ <;>
      · intros
        exact fun _ => trivial
  | succ f IH =>
    obtain ⟨ihB, ihN, ihW, ihR, ihF, ihI, ihE, ihPE, ihEL, ihT, ihTL, ihP, ihPL,
      ihPr, ihLL, ihS, ihA, ihAL, ihC⟩ := IH
    have hmemS : ∀ e : Nat, e ∈ [e] := fun e => List.mem_singleton.mpr rfl
    refine ⟨?_, ?_, ?_, ?_, ?_, ?_, ?_, ?_, ?_, ?_, ?_, ?_, ?_, ?_, ?_, ?_, ?_, ?_, ?_⟩
    · -- execBlock
      intro ctx nodes env
      cases nodes with
      | nil => exact Frames_pure _ _
      | cons n rest =>
        exact Frames_bind (ihN ctx n env) (fun _ => ihB ctx rest env)
    · -- execNode
      intro ctx node env
      cases node with
      | say e =>
        exact Frames_bind (Frames_weak (ihE ctx e env)) (fun v => Frames_emit _ _)
      | ask prompt var =>
        exact Frames_bind (Frames_weak (ihE ctx prompt env)) (fun p =>
          Frames_bind (Frames_emit _ _) (fun _ =>
            Frames_bind (Frames_readLine _) (fun input =>
              Frames_envSet _ env var _ (hmemS env))))
      | assign name e =>
        exact Frames_bind (Frames_weak (ihE ctx e env)) (fun v =>
          Frames_envSet _ env name v (hmemS env))
      | iff cond tb eb =>
        refine Frames_bind (Frames_weak (ihE ctx cond env)) (fun c => ?_)
        split
        · exact Frames_allocBind (fun c' => Frames_child (ihB ctx tb c'))
        · split
          · exact Frames_pure _ _
          · exact Frames_allocBind (fun c' => Frames_child (ihB ctx eb c'))
      | rep timesExpr blk =>
        refine Frames_bind (Frames_weak (ihE ctx timesExpr env)) (fun tv => ?_)
        refine Frames_bind (Frames_liftNum _ tv) (fun q => ?_)
        dsimp only
        split
        · exact Frames_throwErr _ _
        · exact Frames_weak (ihR ctx blk env 0 _)
      | fnDef name params blk => exact Frames_defineFunction _ name _
      | fnCall name args =>
        exact Frames_bind (Frames_weak (ihE ctx _ env)) (fun _ => Frames_pure _ _)
      | ret e => exact Frames_pure _ _
      | imp name => exact ihI ctx name env
      | exprStmt e =>
        exact Frames_bind (Frames_weak (ihE ctx e env)) (fun _ => Frames_pure _ _)
      | wh cond blk => exact Frames_weak (ihW ctx cond blk env)
      | brk => exact Frames_throwErr _ _
      | cont => exact Frames_throwErr _ _
      | forIn var iterable blk =>
        refine Frames_bind (Frames_weak (ihE ctx iterable env)) (fun itv => ?_)
        cases itv with
        | list items => exact Frames_weak (ihF ctx var blk env items)
        | nil => exact Frames_throwErr _ _
        | int i => exact Frames_throwErr _ _
        | float q => exact Frames_throwErr _ _
        | str s => exact Frames_throwErr _ _
        | bool b => exact Frames_throwErr _ _
      | tryExc tb eb =>
        refine Frames_catchWith
          (Frames_allocBind (fun c' => Frames_child (ihB ctx tb c'))) ?_
        intro h hh
        split at hh
        · exact absurd hh (by simp)
        · rw [Option.some.injEq] at hh
          subst hh
          exact Frames_allocBind (fun c' => Frames_child (ihB ctx eb c'))
    · -- whileLoop
      intro ctx cond blk env
      refine Frames_bind (ihE ctx cond env) (fun c => ?_)
      split
      · refine Frames_allocBind (fun c' => ?_)
        exact Frames_bind (ihB ctx blk c') (fun _ =>
          Frames_weak (ihW ctx cond blk env))
      · exact Frames_pure _ _
    · -- repeatLoop
      intro ctx blk env j t
      simp only [repeatLoop]
      split
      · refine Frames_allocBind (fun c' => ?_)
        exact Frames_bind (Frames_envSet _ c' "count" _ (hmemS c')) (fun _ =>
          Frames_bind (ihB ctx blk c') (fun _ =>
            Frames_weak (ihR ctx blk env _ t)))
      · exact Frames_pure _ _
    · -- forInLoop
      intro ctx var blk env items
      cases items with
      | nil => exact Frames_pure _ _
      | cons item rest =>
        refine Frames_allocBind (fun c' => ?_)
        exact Frames_bind (Frames_envSet _ c' var item (hmemS c')) (fun _ =>
          Frames_bind (ihB ctx blk c') (fun _ =>
            Frames_weak (ihF ctx var blk env rest)))
    · -- execImport
      intro ctx name env
      refine Frames_bind (Frames_getState _) (fun st0 => ?_)
      cases lookupFs st0.fs (resolveModule ctx.stdlibPath name) with
      | none =>
        dsimp only
        exact Frames_throwErr _ _
      | some code =>
        dsimp only
        cases parseProgram f code with
        | err e =>
          dsimp only
          exact Frames_throwErr _ _
        | timeout =>
          dsimp only
          exact Frames_stop _
        | ok modNodes =>
          dsimp only
          refine Frames_allocBind (fun modEnv => ?_)
          refine Frames_bind (Frames_allocGlobalScope _) (fun modGlobal => ?_)
          refine Frames_bind
            (Frames_withTables
              (Frames_bind (Frames_setFunctions _ _) (fun _ =>
                Frames_bind (Frames_setModules _ _) (fun _ =>
                  Frames_child (ihB ⟨modGlobal, ""⟩ modNodes modEnv))))
              st0.functions st0.modules)
            (fun _ => ?_)
          refine Frames_bind (Frames_getState _) (fun st2 => ?_)
          refine Frames_bind (Frames_setModules _ _) (fun _ => ?_)
          exact Frames_envSet _ env name _ (by simp)
    · -- evalExpr
      intro ctx s env
      exact Frames_bind (ihPE ctx env _) (fun r => Frames_pure _ _)
    · -- parseExprE
      intro ctx env l
      exact Frames_bind (ihT ctx env l) (fun r => ihEL ctx env r.1 r.2)
    · -- exprLoop
      intro ctx env left l
      simp only [exprLoop]
      split
      · split
        · refine Frames_bind (ihT ctx env _) (fun r => ?_)
          split
          · exact ihEL ctx env _ _
          · exact Frames_throwErr _ _
        · exact Frames_pure _ _
      · exact Frames_pure _ _
    · -- parseTermE
      intro ctx env l
      exact Frames_bind (ihP ctx env l) (fun r => ihTL ctx env r.1 r.2)
    · -- termLoop
      intro ctx env left l
      simp only [termLoop]
      split
      · split
        · refine Frames_bind (ihP ctx env _) (fun r => ?_)
          split
          · exact ihTL ctx env _ _
          · exact Frames_throwErr _ _
        · exact Frames_pure _ _
      · exact Frames_pure _ _
    · -- parsePowerE
      intro ctx env l
      exact Frames_bind (ihPr ctx env l) (fun r => ihPL ctx env r.1 r.2)
    · -- powerLoop
      intro ctx env left l
      simp only [powerLoop]
      split
      · refine Frames_bind (ihPr ctx env _) (fun r => ?_)
        split
        · exact ihPL ctx env _ _
        · exact Frames_throwErr _ _
      · exact Frames_pure _ _
    · -- parsePrimaryE
      intro ctx env l
      simp only [parsePrimaryE]
      split
      · exact Frames_throwErr _ _
      · split
        · refine Frames_bind (ihPE ctx env _) (fun r => ?_)
          split
          · exact Frames_pure _ _
          · exact Frames_throwErr _ _
        · split
          · split
            · exact Frames_pure _ _
            · exact ihLL ctx env [] _
          · split
            · split
              · exact Frames_pure _ _
              · exact Frames_throwErr _ _
            · split
              · split
                · exact Frames_pure _ _
                · exact Frames_throwErr _ _
              · split
                · split
                  · exact Frames_pure _ _
                  · split
                    · exact Frames_pure _ _
                    · split
                      · exact Frames_pure _ _
                      · refine Frames_bind (Frames_getState _) (fun st0 => ?_)
                        split
                        · exact Frames_throwErr _ _
                        · exact ihS ctx env _ _ _
                · exact Frames_throwErr _ _
    · -- listLoop
      intro ctx env acc l
      simp only [listLoop]
      refine Frames_bind (ihPE ctx env l) (fun r => ?_)
      split
      · exact Frames_pure _ _
      · split
        · exact ihLL ctx env _ _
        · exact Frames_throwErr _ _
    · -- suffixLoop
      intro ctx env id base l
      simp only [suffixLoop]
      split
      · refine Frames_bind (ihA ctx env _) (fun r => ?_)
        cases base with
        | str marker =>
          dsimp only
          cases htb : tryBuiltin marker r.1 with
          | some act =>
            dsimp only
            exact Frames_bind (Frames_tryBuiltin marker r.1 act htb)
              (fun v => ihS ctx env id v r.2)
          | none =>
            dsimp only
            exact Frames_bind (ihC ctx id r.1) (fun v => ihS ctx env id v r.2)
        | nil => exact Frames_bind (ihC ctx id r.1) (fun v => ihS ctx env id v r.2)
        | int i => exact Frames_bind (ihC ctx id r.1) (fun v => ihS ctx env id v r.2)
        | float q => exact Frames_bind (ihC ctx id r.1) (fun v => ihS ctx env id v r.2)
        | bool b => exact Frames_bind (ihC ctx id r.1) (fun v => ihS ctx env id v r.2)
        | list items => exact Frames_bind (ihC ctx id r.1) (fun v => ihS ctx env id v r.2)
      · split
        · split
          · refine Frames_bind (ihPE ctx env _) (fun r => ?_)
            split
            · exact Frames_throwErr _ _
            · refine Frames_bind (Frames_liftNum _ _) (fun q => ?_)
              split
              · exact Frames_throwErr _ _
              · exact ihS ctx env _ _ _
          · exact Frames_throwErr _ _
        · exact Frames_pure _ _
    · -- parseArgs
      intro ctx env l
      simp only [parseArgs]
      split
      · exact Frames_pure _ _
      · exact ihAL ctx env [] _
    · -- parseArgsLoop
      intro ctx env acc l
      simp only [parseArgsLoop]
      refine Frames_bind (ihPE ctx env l) (fun r => ?_)
      split
      · exact Frames_pure _ _
      · split
        · exact ihAL ctx env _ _
        · exact Frames_throwErr _ _
    · -- callUser
      intro ctx id args
      refine Frames_bind (Frames_getState _) (fun st0 => ?_)
      split
      · exact Frames_throwErr _ _
      · split
        · exact Frames_throwErr _ _
        · refine Frames_allocBind (fun c' => ?_)
          exact Frames_bind (Frames_bindParams _ c' (hmemS c') _ args) (fun _ =>
            Frames_bind (ihB ctx _ c') (fun _ => Frames_pure _ _))

/-- Chain lookups agree between two states that coincide on every scope index
up to the start scope (parents only ever point downward in a well-formed
store). -/
theorem envGetAux_agree (st st' : St) (hwf : WFSt st) :
    ∀ f e n, (∀ i, i ≤ e → st'.envs.get? i = st.envs.get? i) →
      envGetAux st' f e n = envGetAux st f e n := by
  intro f
  induction f with
  | zero => intro e n h; rfl
  | succ f ih =>
    intro e n h
    simp only [envGetAux]
    rw [h e (le_refl e)]
    cases hsc : st.envs.get? e with
    | none => rfl
    | some sc =>
      dsimp only
      cases lookupA sc.vars n with
      | some v => rfl
      | none =>
        dsimp only
        cases hp : sc.parent with
        | none => rfl
        | some p =>
          have hpe : p < e := hwf e sc hsc p hp
          exact ih p n (fun i hi => h i (le_trans hi (le_of_lt hpe)))

theorem envGet_agree (st st' : St) (hwf : WFSt st) (e : Nat) (n : String)
    (h : ∀ i, i ≤ e → st'.envs.get? i = st.envs.get? i) :
    envGet st' e n = envGet st e n :=
  envGetAux_agree st st' hwf (e + 1) e n h

/-- Executing a single `If` node writes no pre-existing scope at all: the
condition evaluation is scope-pure and both branches run in a freshly
allocated child. -/
theorem framesAll_ifNode (f : Nat) (ctx : Ctx) (cond : String) (tb eb : List Node)
    (env : Nat) : Frames [] (execNode (f + 1) ctx (.iff cond tb eb) env) := by
  have hB := (frames_interp f).1
  have hE := (frames_interp f).2.2.2.2.2.2.1
  simp only [execNode]
  refine Frames_bind (hE ctx cond env) (fun c => ?_)
  split
  · exact Frames_allocBind (fun c' => hB ctx tb c')
  · split
    · exact Frames_pure _ _
    · exact Frames_allocBind (fun c' => hB ctx eb c')

/-- Executing a single `While` node writes no pre-existing scope. -/
theorem framesAll_whNode (f : Nat) (ctx : Ctx) (cond : String) (blk : List Node)
    (env : Nat) : Frames [] (execNode (f + 1) ctx (.wh cond blk) env) := by
  have hW := (frames_interp f).2.2.1
  simp only [execNode]
  exact hW ctx cond blk env

/-- Executing a single `ForIn` node writes no pre-existing scope. -/
theorem framesAll_forInNode (f : Nat) (ctx : Ctx) (var it : String) (blk : List Node)
    (env : Nat) : Frames [] (execNode (f + 1) ctx (.forIn var it blk) env) := by
  have hF := (frames_interp f).2.2.2.2.1
  have hE := (frames_interp f).2.2.2.2.2.2.1
  simp only [execNode]
  refine Frames_bind (hE ctx it env) (fun itv => ?_)
  cases itv with
  | list items => exact Frames_weak (hF ctx var blk env items)
  | nil => exact Frames_throwErr _ _
  | int i => exact Frames_throwErr _ _
  | float q => exact Frames_throwErr _ _
  | str s => exact Frames_throwErr _ _
  | bool b => exact Frames_throwErr _ _

/-- After a normally completed one-node block whose node writes no
pre-existing scope, every name resolves in the executing environment exactly
as before. -/
theorem envGet_after_single (fuel : Nat) (ctx : Ctx) (node : Node) (env : Nat)
    (st st' : St) (n : String) (hwf : WFSt st) (henv : env < st.envs.length)
    (hframes : ∀ g, Frames [] (execNode g ctx node env))
    (hexec : execBlock fuel ctx [node] env st = .ok () st') :
    envGet st' env n = envGet st env n := by
  match fuel with
  | 0 => exact absurd hexec (by simp [execBlock, M.stop])
  | f + 1 =>
    rw [show execBlock (f + 1) ctx [node] env
        = (execNode f ctx node env >>= fun _ => execBlock f ctx [] env) from rfl,
      M.bind_eq] at hexec
    unfold M.bind at hexec
    cases hnode : execNode f ctx node env st with
    | timeout =>
      rw [hnode] at hexec
      exact absurd hexec (by simp)
    | err m st1 =>
      rw [hnode] at hexec
      exact absurd hexec (by simp)
    | ok a st1 =>
      rw [hnode] at hexec
      dsimp only at hexec
      have hst' : st' = st1 := by
        match f with
        | 0 => exact absurd hexec (by simp [execBlock, M.stop])
        | f' + 1 =>
          rw [show execBlock (f' + 1) ctx [] env = Pure.pure () from rfl] at hexec
          injection hexec with h1 h2
          exact h2.symm
      rw [hst']
      have hfr := hframes f st
      unfold OutcomePreserves at hfr
      rw [hnode] at hfr
      exact envGet_agree st st1 hwf env n
        (fun i hi => hfr.2 i (lt_of_le_of_lt hi henv) (List.not_mem_nil i))

theorem WFSt_initSt (input : List String) (fs : List (String × String)) :
    WFSt (initSt input fs) := by
  intro i sc hsc p hp
  match i with
  | 0 =>
    rw [show (initSt input fs).envs.get? 0 = some ⟨none, builtinVars⟩ from rfl] at hsc
    rw [Option.some.injEq] at hsc
    subst hsc
    cases hp
  | i + 1 =>
    rw [show (initSt input fs).envs.get? (i + 1) = none from rfl] at hsc
    cases hsc

/-! ### Decimal-literal round-trip lemmas (for C5) -/

theorem digitChar_isDigit (n : Nat) (h : n < 10) : (digitChar n).isDigit = true := by
  interval_cases n <;> decide

theorem digitChar_toNat (n : Nat) (h : n < 10) : (digitChar n).toNat = 48 + n := by
  interval_cases n <;> decide

/-- Structure of `natDigits`: a digit head (given as its value, so callers can
do a tenfold case split) and an all-digits tail. -/
theorem natDigitsAux_cons (f : Nat) : ∀ n, n < f →
    ∃ m t, m < 10 ∧ natDigitsAux f n = digitChar m :: t ∧ ∀ c ∈ t, c.isDigit = true := by
  induction f with
  | zero => intro n h; omega
  | succ f ih =>
    intro n h
    by_cases h10 : n < 10
    · exact ⟨n, [], h10, by simp [natDigitsAux, h10], by simp⟩
    · have hdiv : n / 10 < f := by omega
      obtain ⟨m, t, hm, ht, hall⟩ := ih (n / 10) hdiv
      refine ⟨m, t ++ [digitChar (n % 10)], hm, ?_, ?_⟩
      · simp [natDigitsAux, h10, ht]
      · intro c hc
        rcases List.mem_append.mp hc with hc | hc
        · exact hall c hc
        · simp only [List.mem_singleton] at hc
          subst hc
          exact digitChar_isDigit _ (Nat.mod_lt _ (by omega))

theorem natDigits_cons (n : Nat) :
    ∃ m t, m < 10 ∧ natDigits n = digitChar m :: t ∧ ∀ c ∈ t, c.isDigit = true :=
  natDigitsAux_cons (n + 1) n (Nat.lt_succ_self n)

theorem natDigits_all_digit (n : Nat) : ∀ c ∈ natDigits n, c.isDigit = true := by
  obtain ⟨m, t, hm, ht, hall⟩ := natDigits_cons n
  rw [ht]
  intro c hc
  rcases List.mem_cons.mp hc with rfl | hc
  · exact digitChar_isDigit m hm
  · exact hall c hc

theorem digitsVal_append_one (l : List Char) (c : Char) :
    digitsVal (l ++ [c]) = 10 * digitsVal l + (c.toNat - 48) := by
  simp [digitsVal, List.foldl_append]

theorem natDigitsAux_val (f : Nat) : ∀ n, n < f → digitsVal (natDigitsAux f n) = n := by
  induction f with
  | zero => intro n h; omega
  | succ f ih =>
    intro n h
    by_cases h10 : n < 10
    · simp [natDigitsAux, h10, digitsVal, digitChar_toNat n h10]
    · have hdiv : n / 10 < f := by omega
      rw [natDigitsAux, if_neg h10, digitsVal_append_one, ih _ hdiv,
        digitChar_toNat _ (Nat.mod_lt _ (by omega))]
      omega

theorem natDigits_val (n : Nat) : digitsVal (natDigits n) = n :=
  natDigitsAux_val (n + 1) n (Nat.lt_succ_self n)

theorem takeDigits_append (ds rest : List Char) (hds : ∀ c ∈ ds, c.isDigit = true)
    (hrest : (rest.headD 'x').isDigit = false) :
    takeDigits (ds ++ rest) = (ds, rest) := by
  induction ds with
  | nil =>
    cases rest with
    | nil => rfl
    | cons c r =>
      simp only [List.headD_cons] at hrest
      simp [takeDigits, hrest]
  | cons d ds ih =>
    have hd : d.isDigit = true := hds d (List.mem_cons_self d ds)
    have ih' := ih fun c hc => hds c (List.mem_cons_of_mem d hc)
    simp [takeDigits, hd, ih']

theorem isSpaceC_of_digit (c : Char) (h : c.isDigit = true) : isSpaceC c = false := by
  by_contra hc
  rw [Bool.not_eq_false] at hc
  unfold isSpaceC at hc
  simp only [Bool.or_eq_true, decide_eq_true_eq] at hc
  rcases hc with ((((rfl | rfl) | rfl) | rfl) | rfl) | rfl <;> exact absurd h (by decide)

theorem dropWhile_not_head (p : Char → Bool) (l : List Char) (h : p (l.headD 'x') = false)
    (hne : l ≠ []) : l.dropWhile p = l := by
  cases l with
  | nil => rfl
  | cons c r =>
    simp only [List.headD_cons] at h
    simp [List.dropWhile, h]

theorem headD_reverse (l : List Char) : ∀ d, l.reverse.headD d = l.getLastD d := by
  induction l with
  | nil => intro d; rfl
  | cons c r ih =>
    intro d
    rw [List.reverse_cons, List.getLastD_cons]
    cases hr : r.reverse with
    | nil =>
      have hr' : r = [] := by simpa using congrArg List.reverse hr
      subst hr'
      simp
    | cons y ys =>
      have h2 := ih c
      rw [hr] at h2
      simp only [List.headD_cons] at h2
      simpa using h2

theorem headD_append (l₁ l₂ : List Char) (d : Char) (h : l₁ ≠ []) :
    (l₁ ++ l₂).headD d = l₁.headD d := by
  cases l₁ with
  | nil => exact absurd rfl h
  | cons c r => simp

theorem headD_mem (l : List Char) (d : Char) (h : l ≠ []) : l.headD d ∈ l := by
  cases l with
  | nil => exact absurd rfl h
  | cons c r => simp

theorem natDigits_ne_nil (n : Nat) : natDigits n ≠ [] := by
  obtain ⟨m, t, _, ht, _⟩ := natDigits_cons n
  simp [ht]

theorem natDigits_head_digit (n : Nat) (d : Char) :
    ((natDigits n).headD d).isDigit = true := by
  obtain ⟨m, t, hm, ht, _⟩ := natDigits_cons n
  rw [ht]
  simpa using digitChar_isDigit m hm

theorem digitChar_tests (m : Nat) (h : m < 10) :
    digitChar m ≠ '(' ∧ digitChar m ≠ '[' ∧ digitChar m ≠ '"' ∧ digitChar m ≠ '\''
      ∧ identStart (digitChar m) = false ∧ isSpaceC (digitChar m) = false := by
  interval_cases m <;>
    exact ⟨by decide, by decide, by decide, by decide, by decide, by decide⟩

theorem trimC_eq (l : List Char) (h1 : isSpaceC (l.headD 'x') = false)
    (h2 : isSpaceC (l.getLastD 'x') = false) : trimC l = l := by
  cases l with
  | nil => rfl
  | cons c r =>
    unfold trimC
    rw [dropWhile_not_head _ _ h1 (by simp)]
    rw [dropWhile_not_head, List.reverse_reverse]
    · rw [headD_reverse]
      exact h2
    · simp

theorem getLastD_append (l₁ l₂ : List Char) (d : Char) (h : l₂ ≠ []) :
    (l₁ ++ l₂).getLastD d = l₂.getLastD d := by
  rw [← headD_reverse, ← headD_reverse, List.reverse_append,
    headD_append _ _ _ (by simpa using h)]

theorem natDigits_last_digit (n : Nat) (d : Char) :
    ((natDigits n).getLastD d).isDigit = true := by
  have hmem : (natDigits n).getLastD d ∈ natDigits n := by
    rw [← headD_reverse]
    have := headD_mem (natDigits n).reverse d (by simpa using natDigits_ne_nil n)
    simpa using this
  exact natDigits_all_digit n _ hmem

theorem intChars_of_nonneg (a : Int) (h : ¬a < 0) : intChars a = natDigits a.natAbs := by
  unfold intChars intRepr
  rw [if_neg h]
  rfl

theorem intChars_of_neg (a : Int) (h : a < 0) : intChars a = '-' :: natDigits a.natAbs := by
  unfold intChars intRepr
  rw [if_pos h]
  rfl

theorem scanNumber_nat (n : Nat) (rest : List Char) (hmax : (n : Int) ≤ int64Max)
    (hd : (rest.headD 'x').isDigit = false) (hdot : rest.headD 'x' ≠ '.') :
    scanNumber (natDigits n ++ rest) = .ok (.int (n : Int), rest) := by
  have hne : natDigits n ≠ [] := natDigits_ne_nil n
  have hh : ((natDigits n ++ rest).headD 'x') ≠ '-' := by
    rw [headD_append _ _ _ hne]
    intro hcontra
    have hdig := natDigits_head_digit n 'x'
    rw [hcontra] at hdig
    exact absurd hdig (by decide)
  have hcond : ¬((n : Int) < int64Min || (n : Int) > int64Max) = true := by
    simp only [Bool.or_eq_true, decide_eq_true_eq, not_or, not_lt]
    simp only [int64Min, int64Max] at hmax ⊢
    omega
  unfold scanNumber
  rw [if_neg hh]
  simp only [takeDigits_append _ _ (natDigits_all_digit n) hd, natDigits_val,
    Bool.false_eq_true, if_false]
  rw [if_neg hdot, if_neg hcond]

theorem scanNumber_neg (n : Nat) (rest : List Char) (hmin : int64Min ≤ -(n : Int))
    (hd : (rest.headD 'x').isDigit = false) (hdot : rest.headD 'x' ≠ '.') :
    scanNumber ('-' :: (natDigits n ++ rest)) = .ok (.int (-(n : Int)), rest) := by
  have hcond : ¬(-(n : Int) < int64Min || -(n : Int) > int64Max) = true := by
    simp only [Bool.or_eq_true, decide_eq_true_eq, not_or, not_lt]
    simp only [int64Min, int64Max] at hmin ⊢
    omega
  unfold scanNumber
  rw [if_pos (show (('-' :: (natDigits n ++ rest)).headD 'x') = '-' from rfl)]
  simp only [List.tail_cons, takeDigits_append _ _ (natDigits_all_digit n) hd,
    natDigits_val, if_true]
  rw [if_neg hdot, if_neg hcond]

theorem intChars_ne_nil (a : Int) : intChars a ≠ [] := by
  by_cases ha : a < 0
  · rw [intChars_of_neg a ha]
    simp
  · rw [intChars_of_nonneg a ha]
    exact natDigits_ne_nil _

theorem intChars_head_not_space (a : Int) (d : Char) :
    isSpaceC ((intChars a).headD d) = false := by
  by_cases ha : a < 0
  · rw [intChars_of_neg a ha, List.headD_cons]
    decide
  · rw [intChars_of_nonneg a ha]
    exact isSpaceC_of_digit _ (natDigits_head_digit _ d)

theorem intChars_last_not_space (a : Int) (d : Char) :
    isSpaceC ((intChars a).getLastD d) = false := by
  by_cases ha : a < 0
  · rw [intChars_of_neg a ha, List.getLastD_cons]
    exact isSpaceC_of_digit _ (natDigits_last_digit _ _)
  · rw [intChars_of_nonneg a ha]
    exact isSpaceC_of_digit _ (natDigits_last_digit _ _)

theorem matchC_ne (c : Char) (l : List Char)
    (h : (l.dropWhile isSpaceC).headD 'x' ≠ c) :
    matchC c l = (false, l.dropWhile isSpaceC) := by
  unfold matchC
  cases hdw : l.dropWhile isSpaceC with
  | nil => rfl
  | cons d r =>
    rw [hdw] at h
    simp only [List.headD_cons] at h
    simp [h]

theorem parsePrimary_int (g : Nat) (ctx : Ctx) (env : Nat) (a : Int) (l rest : List Char)
    (hl : l.dropWhile isSpaceC = intChars a ++ rest)
    (hmin : int64Min ≤ a) (hmax : a ≤ int64Max)
    (hd : (rest.headD 'x').isDigit = false) (hdot : rest.headD 'x' ≠ '.') (st : St) :
    parsePrimaryE (g + 1) ctx env l st = .ok (.int a, rest) st := by
  by_cases ha : a < 0
  · rw [intChars_of_neg a ha, List.cons_append] at hl
    have hmin' : int64Min ≤ -(a.natAbs : Int) := by omega
    have hcast : -((a.natAbs : Nat) : Int) = a := by omega
    have hdig : (((natDigits a.natAbs ++ rest).headD ' ').isDigit) = true := by
      rw [headD_append _ _ _ (natDigits_ne_nil _)]
      exact natDigits_head_digit _ _
    simp only [parsePrimaryE]
    rw [hl]
    dsimp only
    rw [if_neg (by decide), if_neg (by decide)]
    rw [if_neg (show ¬((decide ('-' = '"') || decide ('-' = '\'')) = true) from by decide)]
    rw [if_pos (show (('-'.isDigit || (decide ('-' = '-') &&
      ((natDigits a.natAbs ++ rest).headD ' ').isDigit)) = true) from by
        simp only [Bool.or_eq_true, Bool.and_eq_true, decide_eq_true_eq]
        exact Or.inr ⟨trivial, hdig⟩)]
    rw [scanNumber_neg a.natAbs rest hmin' hd hdot]
    dsimp only
    rw [hcast]
    rfl
  · rw [intChars_of_nonneg a ha] at hl
    obtain ⟨m, t, hm, ht, hall⟩ := natDigits_cons a.natAbs
    obtain ⟨h1, h2, h3, h4, h5, h6⟩ := digitChar_tests m hm
    rw [ht, List.cons_append] at hl
    have hcast : ((a.natAbs : Nat) : Int) = a := by omega
    simp only [parsePrimaryE]
    rw [hl]
    dsimp only
    rw [if_neg h1, if_neg h2]
    rw [if_neg (show ¬((decide (digitChar m = '"') || decide (digitChar m = '\'')) = true) from by
      simp [h3, h4])]
    rw [if_pos (show (((digitChar m).isDigit || (decide (digitChar m = '-') &&
      ((t ++ rest).headD ' ').isDigit)) = true) from by
        simp [digitChar_isDigit m hm])]
    rw [← List.cons_append, ← ht, scanNumber_nat a.natAbs rest (hcast ▸ hmax) hd hdot]
    dsimp only
    rw [hcast]
    rfl

theorem parsePower_int (g : Nat) (ctx : Ctx) (env : Nat) (a : Int) (l rest : List Char)
    (hl : l.dropWhile isSpaceC = intChars a ++ rest)
    (hmin : int64Min ≤ a) (hmax : a ≤ int64Max)
    (hd : (rest.headD 'x').isDigit = false) (hdot : rest.headD 'x' ≠ '.')
    (hcaret : (rest.dropWhile isSpaceC).headD 'x' ≠ '^') (st : St) :
    parsePowerE (g + 2) ctx env l st = .ok (.int a, rest.dropWhile isSpaceC) st := by
  simp only [parsePowerE, M.bind_eq, M.bind]
  rw [parsePrimary_int g ctx env a l rest hl hmin hmax hd hdot st]
  dsimp only
  simp only [powerLoop]
  rw [matchC_ne '^' rest hcaret]
  rfl

theorem parseTerm_int_op (g : Nat) (ctx : Ctx) (env : Nat) (a b : Int) (op : Char)
    (hop : op = '/' ∨ op = '%')
    (hmina : int64Min ≤ a) (hmaxa : a ≤ int64Max)
    (hminb : int64Min ≤ b) (hmaxb : b ≤ int64Max) (st : St) :
    parseTermE (g + 4) ctx env (intChars a ++ (' ' :: op :: ' ' :: intChars b)) st
      = (match termOp op (.int a) (.int b) with
         | .ok v => Outcome.ok (v, ([] : List Char)) st
         | .error e => Outcome.err e st) := by
  have hopns : isSpaceC op = false := by rcases hop with rfl | rfl <;> decide
  have h0 : (intChars a ++ (' ' :: op :: ' ' :: intChars b)).dropWhile isSpaceC
      = intChars a ++ (' ' :: op :: ' ' :: intChars b) :=
    dropWhile_not_head _ _
      (by rw [headD_append _ _ _ (intChars_ne_nil a)]; exact intChars_head_not_space a 'x')
      (by simp [intChars_ne_nil a])
  have hdw1 : (' ' :: op :: ' ' :: intChars b).dropWhile isSpaceC = op :: ' ' :: intChars b := by
    rw [List.dropWhile_cons, if_pos (show isSpaceC ' ' = true from rfl),
      List.dropWhile_cons, if_neg (by simp [hopns])]
  have hdw2 : (' ' :: intChars b).dropWhile isSpaceC = intChars b ++ [] := by
    rw [List.dropWhile_cons, if_pos (show isSpaceC ' ' = true from rfl),
      dropWhile_not_head _ _ (intChars_head_not_space b 'x') (intChars_ne_nil b),
      List.append_nil]
  simp only [parseTermE, M.bind_eq, M.bind]
  rw [parsePower_int (g + 1) ctx env a _ (' ' :: op :: ' ' :: intChars b) h0 hmina hmaxa
    (by rw [List.headD_cons]; decide) (by rw [List.headD_cons]; decide)
    (by rw [hdw1, List.headD_cons]; rcases hop with rfl | rfl <;> decide) st]
  dsimp only
  rw [hdw1]
  simp only [termLoop]
  rw [dropWhile_not_head _ _ (by simpa using hopns) (by simp)]
  dsimp only
  rw [if_pos (show ((decide (op = '*') || decide (op = '/') || decide (op = '%')) = true) from by
    rcases hop with rfl | rfl <;> decide)]
  simp only [M.bind_eq, M.bind]
  rw [parsePower_int g ctx env b _ [] hdw2 hminb hmaxb (by decide) (by decide) (by decide) st]
  dsimp only
  cases hres : termOp op (.int a) (.int b) with
  | ok v => rfl
  | error e => rfl

theorem evalExpr_int_op (g : Nat) (ctx : Ctx) (env : Nat) (a b : Int) (op : Char)
    (hop : op = '/' ∨ op = '%')
    (hmina : int64Min ≤ a) (hmaxa : a ≤ int64Max)
    (hminb : int64Min ≤ b) (hmaxb : b ≤ int64Max) (s : String)
    (hs : s.data = intChars a ++ (' ' :: op :: ' ' :: intChars b)) (st : St) :
    evalExpr (g + 6) ctx s env st
      = (match termOp op (.int a) (.int b) with
         | .ok v => Outcome.ok v st
         | .error e => Outcome.err e st) := by
  have htrim : trimC s.data = s.data := by
    rw [hs]
    apply trimC_eq
    · rw [headD_append _ _ _ (intChars_ne_nil a)]
      exact intChars_head_not_space a 'x'
    · rw [getLastD_append _ _ _ (by simp), List.getLastD_cons, List.getLastD_cons,
        List.getLastD_cons]
      exact intChars_last_not_space b ' '
  simp only [evalExpr, M.bind_eq, M.bind]
  rw [htrim, hs]
  simp only [parseExprE, M.bind_eq, M.bind]
  rw [parseTerm_int_op g ctx env a b op hop hmina hmaxa hminb hmaxb st]
  cases hres : termOp op (.int a) (.int b) with
  | ok v =>
    dsimp only
    simp only [exprLoop]
    rfl
  | error e => rfl

/-! ### Claim theorems -/

/-- C10: the global Environment of a fresh interpreter binds each builtin
name to the ordinary String value `"__builtin_" ++ name` (there is no
separate marker kind in the `Value` variant), evaluating a bare builtin
identifier yields that string, `len(print)` yields `Int64 15`, and
`str(range)` yields `"__builtin_range"`. -/
theorem C10_builtins_are_plain_strings :
    (∀ input fs,
      envGet (initSt input fs) 0 "print" = some (Value.str "__builtin_print")
      ∧ envGet (initSt input fs) 0 "range" = some (Value.str "__builtin_range")
      ∧ envGet (initSt input fs) 0 "len" = some (Value.str "__builtin_len")
      ∧ envGet (initSt input fs) 0 "str" = some (Value.str "__builtin_str")
      ∧ envGet (initSt input fs) 0 "int" = some (Value.str "__builtin_int")
      ∧ envGet (initSt input fs) 0 "float" = some (Value.str "__builtin_float")
      ∧ envGet (initSt input fs) 0 "append" = some (Value.str "__builtin_append"))
    ∧ evalExpr 30 (initCtx "") "print" 0 (initSt [] [])
        = Outcome.ok (Value.str "__builtin_print") (initSt [] [])
    ∧ evalExpr 30 (initCtx "") "range" 0 (initSt [] [])
        = Outcome.ok (Value.str "__builtin_range") (initSt [] [])
    ∧ evalExpr 30 (initCtx "") "len" 0 (initSt [] [])
        = Outcome.ok (Value.str "__builtin_len") (initSt [] [])
    ∧ evalExpr 30 (initCtx "") "str" 0 (initSt [] [])
        = Outcome.ok (Value.str "__builtin_str") (initSt [] [])
    ∧ evalExpr 30 (initCtx "") "int" 0 (initSt [] [])
        = Outcome.ok (Value.str "__builtin_int") (initSt [] [])
    ∧ evalExpr 30 (initCtx "") "float" 0 (initSt [] [])
        = Outcome.ok (Value.str "__builtin_float") (initSt [] [])
    ∧ evalExpr 30 (initCtx "") "append" 0 (initSt [] [])
        = Outcome.ok (Value.str "__builtin_append") (initSt [] [])
    ∧ evalExpr 30 (initCtx "") "len(print)" 0 (initSt [] [])
        = Outcome.ok (Value.int 15) (initSt [] [])
    ∧ evalExpr 30 (initCtx "") "str(range)" 0 (initSt [] [])
        = Outcome.ok (Value.str "__builtin_range") (initSt [] []) :=
  ⟨fun _ _ => ⟨rfl, rfl, rfl, rfl, rfl, rfl, rfl⟩,
   rfl, rfl, rfl, rfl, rfl, rfl, rfl, rfl, rfl⟩

/-- C2 counterexample: executing a `while` loop whose body is a single
`break` raises the runtime error `"Unknown AST node"` — the claim predicted
that `break` stops the loop without raising a runtime error. -/
theorem C2_counterexample :
    errMsgOf (execBlock 30 (initCtx "") [Node.wh "1" [Node.brk]] 0 (initSt [] []))
      = some "Unknown AST node" := rfl

/-- C2 amended: `Break` and `Continue` are parsed into node kinds, but the
statement executor has no dispatch case for them: executing either raises
the runtime error `"Unknown AST node"` (leaving the state unchanged), so an
enclosing `while`/`for-in`/`repeat` loop is aborted by error propagation
rather than cleanly stopped or advanced. -/
theorem C2_break_continue_unknown_node :
    (∀ fuel ctx rest env st,
      execBlock (fuel + 2) ctx (Node.brk :: rest) env st
        = Outcome.err "Unknown AST node" st
      ∧ execBlock (fuel + 2) ctx (Node.cont :: rest) env st
        = Outcome.err "Unknown AST node" st)
    ∧ errMsgOf (execBlock 30 (initCtx "") [Node.forIn "x" "[1, 2]" [Node.cont]] 0
        (initSt [] [])) = some "Unknown AST node"
    ∧ errMsgOf (execBlock 30 (initCtx "") [Node.rep "2" [Node.brk]] 0
        (initSt [] [])) = some "Unknown AST node" :=
  ⟨fun _ _ _ _ _ => ⟨rfl, rfl⟩, rfl, rfl⟩

/-- C4 counterexample: in a child Environment (here the body of `if 1:`),
the assignment `true = 5` is NOT rejected: the run completes normally and
the child scope now binds `true` to `5` — the claim predicted a
`"cannot reassign constant"` error for every Environment. -/
theorem C4_counterexample :
    (okSt (execBlock 30 (initCtx "") [Node.iff "1" [Node.assign "true" "5"] []] 0
        (initSt [] []))).map (fun st => envGet st 1 "true")
      = some (some (Value.int 5)) := rfl

/-- C4 amended: an assignment to `true`, `false` or `None` is rejected with
`"Cannot reassign constant '<name>'"` exactly when the name is already bound
in the assigned-to Environment's own map (`Environment::set` checks only the
current scope, not the chain).  Top-level assignments are therefore rejected
— the constructor bound the constants in the global scope — but the first
such assignment in a fresh child scope succeeds and shadows the constant. -/
theorem C4_constant_reassignment_scope_local :
    (∀ st e n v sc, st.envs.get? e = some sc → isConstName n = true →
      (lookupA sc.vars n).isSome = true →
      envSet e n v st = Outcome.err ("Cannot reassign constant '" ++ n ++ "'") st)
    ∧ (∀ st e n v sc, st.envs.get? e = some sc → lookupA sc.vars n = none →
      errMsgOf (envSet e n v st) = none)
    ∧ execBlock 30 (initCtx "") [Node.assign "true" "5"] 0 (initSt [] [])
        = Outcome.err "Cannot reassign constant 'true'" (initSt [] []) := by
  refine ⟨?_, ?_, rfl⟩
  · intro st e n v sc h1 h2 h3
    rw [List.get?_eq_getElem?] at h1
    simp [envSet, h1, h2, h3]
  · intro st e n v sc h1 h2
    rw [List.get?_eq_getElem?] at h1
    simp [envSet, h1, h2, errMsgOf]

/-- C4 witness: the amended rejection rule applied at the global scope of a
fresh interpreter, for the name `true`. -/
theorem C4_constant_reassignment_scope_local_witness :
    envSet 0 "true" (Value.int 7) (initSt [] [])
      = Outcome.err ("Cannot reassign constant '" ++ "true" ++ "'") (initSt [] []) :=
  C4_constant_reassignment_scope_local.1 (initSt [] []) 0 "true" (Value.int 7)
    ⟨none, builtinVars⟩ rfl rfl rfl

/-- C9 counterexample: the loader appends `.bloa` even when the module name
already carries the extension — `import m.bloa` resolves to `m.bloa.bloa`,
so it fails with `"Module not found: 'm.bloa'"` even though a file exists at
exactly the requested name. -/
theorem C9_counterexample :
    resolveModule "" "m.bloa" = "m.bloa.bloa"
    ∧ errMsgOf (execBlock 30 (initCtx "") [Node.imp "m.bloa"] 0
        (initSt [] [("m.bloa", "say 1")])) = some "Module not found: 'm.bloa'" :=
  ⟨rfl, rfl⟩

/-- C9 amended: `Import` resolves the module name against the configured
`stdlib_path` (the current directory when it is unset), replaces backslashes
by the preferred separator, and appends `.bloa` UNCONDITIONALLY (also when
the caller already wrote the extension); when no file exists at the resolved
path it raises `"Module not found: '<requested name>'"` with the state
unchanged. -/
theorem C9_import_resolution :
    (∀ fuel ctx name env st,
      lookupFs st.fs (resolveModule ctx.stdlibPath name) = none →
      execImport (fuel + 1) ctx name env st
        = Outcome.err ("Module not found: '" ++ name ++ "'") st)
    ∧ (∀ root name, resolveModule root name = resolveModule root (normalizeSep name))
    ∧ (∀ name, resolveModule "" name = normalizeSep name ++ ".bloa")
    ∧ (∀ root name, root ≠ "" →
        resolveModule root name = pathJoin root (normalizeSep name) ++ ".bloa") := by
  refine ⟨?_, ?_, fun name => by simp [resolveModule], ?_⟩
  · intro fuel ctx name env st h
    simp only [execImport, M.bind_eq, M.bind, getState]
    rw [h]
    rfl
  · intro root name
    simp [resolveModule, normalizeSep_idem]
  · intro root name hroot
    simp [resolveModule, hroot]

/-- C9 witness: the missing-file error at a concrete state whose file system
is empty. -/
theorem C9_import_resolution_witness :
    execImport 1 (initCtx "") "util" 0 (initSt [] [])
      = Outcome.err ("Module not found: '" ++ "util" ++ "'") (initSt [] []) :=
  C9_import_resolution.1 0 (initCtx "") "util" 0 (initSt [] []) rfl

/-- C1: executing a `Return` node is a no-op — the state is unchanged and
the following statements of the block still run (no unwinding) — and every
user-function invocation that completes normally produces `Nil`, regardless
of any `return` expression in the body (demonstrated end-to-end on `f(1)`
where `f(x)` has body `return x`). -/
theorem C1_return_noop_call_nil :
    (∀ fuel ctx e rest env st,
      execBlock (fuel + 2) ctx (Node.ret e :: rest) env st
        = execBlock (fuel + 1) ctx rest env st)
    ∧ (∀ fuel ctx id args st, retValIs (callUser fuel ctx id args st) Value.nil)
    ∧ evalExpr 30 (initCtx "") "f(1)" 0 stRetFun = Outcome.ok Value.nil stRetFunAfter := by
  refine ⟨fun _ _ _ _ _ _ => rfl, ?_, rfl⟩
  intro fuel ctx id args st
  match fuel with
  | 0 => trivial
  | f + 1 =>
    simp only [callUser]
    apply retValIs_bind
    intro a st1
    cases hlf : lookupF a.functions id with
    | none => trivial
    | some entry =>
      dsimp only
      by_cases harity : entry.params.length ≠ args.length
      · rw [if_pos harity]
        trivial
      · rw [if_neg harity]
        apply retValIs_bind
        intro c st2
        apply retValIs_bind
        intro u st3
        apply retValIs_bind
        intro u2 st4
        exact retValIs_pure Value.nil st4

/-- C7: the builtin `append(lst, v)` returns a NEW list whose elements are
those of `lst` followed by `v`, and never mutates its argument: after
executing `lst2 = append(lst, 9)`, reading `lst` still yields the original
elements while `lst2` holds the extended list (for every original list
`L`). -/
theorem C7_append_returns_new_list :
    (∀ l v, tryBuiltin "__builtin_append" [Value.list l, v]
        = some (Pure.pure (Value.list (l ++ [v]))))
    ∧ (∀ L, (okSt (execBlock 30 (initCtx "") [Node.assign "lst2" "append(lst, 9)"] 0
        (stWithLst L))).map (fun st => (envGet st 0 "lst", envGet st 0 "lst2"))
        = some (some (Value.list L), some (Value.list (L ++ [Value.int 9]))))
    ∧ (∀ L, execBlock 30 (initCtx "") [Node.assign "lst2" "append(lst, 9)"] 0
        (stWithLst L) = Outcome.ok () (stWithLst2 L)) :=
  ⟨fun _ _ => rfl, fun _ => rfl, fun _ => rfl⟩

/-- C8: a `+` with a string operand concatenates, stringifying the other
side (`"s" + v` gives `s ++ str(v)`, `v + "s"` gives `str(v) ++ s`); when
neither operand is a string, `+` adds the `value_as_number` coercions and
reports the sum as a floating value; end-to-end, `"x=" + 5` evaluates to the
string `"x=5"`. -/
theorem C8_plus_string_concat :
    (∀ s v, addOp (Value.str s) v = .ok (Value.str (s ++ value_to_string v)))
    ∧ (∀ s v, addOp v (Value.str s) = .ok (Value.str (value_to_string v ++ s)))
    ∧ (∀ l r a b, value_as_number l = .ok a → value_as_number r = .ok b →
        isStrV l = false → isStrV r = false →
        addOp l r = .ok (Value.float (a + b)))
    ∧ evalExpr 30 (initCtx "") "\"x=\" + 5" 0 (initSt [] [])
        = Outcome.ok (Value.str "x=5") (initSt [] []) := by
  refine ⟨fun s v => rfl, fun s v => by cases v <;> rfl, ?_, rfl⟩
  intro l r a b h1 h2 h3 h4
  simp [addOp, h1, h2, h3, h4, exc_ok_bind]

/-- C8 witness: numeric addition of two `Int64` operands, reported as a
floating value. -/
theorem C8_plus_string_concat_witness :
    addOp (Value.int 2) (Value.int 3)
      = .ok (Value.float (((2 : Int) : ℚ) + ((3 : Int) : ℚ))) :=
  C8_plus_string_concat.2.2.1 (Value.int 2) (Value.int 3) _ _ rfl rfl rfl rfl

/-- C6 counterexample: the operand `'3'` of `*` is a String, yet the
evaluation does NOT fail — `value_as_number` coerces numeric strings through
`std::stod`, so `'3' * 2` evaluates to the float `6`. -/
theorem C6_counterexample :
    evalExpr 30 (initCtx "") "'3' * 2" 0 (initSt [] [])
      = Outcome.ok (Value.float 6) (initSt [] []) := by
  have h : (((3 : Nat) : ℚ) * ((2 : Int) : ℚ)) = 6 := by norm_num
  calc evalExpr 30 (initCtx "") "'3' * 2" 0 (initSt [] [])
      = Outcome.ok (Value.float (((3 : Nat) : ℚ) * ((2 : Int) : ℚ))) (initSt [] []) := rfl
    _ = Outcome.ok (Value.float 6) (initSt [] []) := by rw [h]

/-- C6 amended: `-`, `*`, `/`, `%`, `^` convert both operands through
`value_as_number`: `Bool`, `Nil` and `List` operands fail with
`"Value is not numeric"`, and a `String` operand fails ONLY when `std::stod`
finds no numeric prefix in it — a parsable string is silently coerced to
the parsed number, with `std::stod`'s full syntax accepted: `'1e5'` coerces
to `100000` and `'0x10'` to `16`.  (The non-finite `inf`/`nan` parses give
non-finite doubles, and out-of-`double`-range magnitudes make `std::stod`
throw `std::out_of_range` into the same `catch`; both lie outside the
exact-rational float model, so the coercion conjunct assumes a finite parse
whose value sits well inside the `double` range.)  Whenever both coercions
succeed the result is always reported as a floating value (also for two
`Int64` operands), with division and modulo by zero as errors. -/
theorem C6_numeric_ops_coerce_strings :
    (∀ b, value_as_number (Value.bool b) = .error "Value is not numeric")
    ∧ value_as_number Value.nil = .error "Value is not numeric"
    ∧ (∀ l, value_as_number (Value.list l) = .error "Value is not numeric")
    ∧ (∀ s, stodModel s.data = none →
        value_as_number (Value.str s) = .error "Value is not numeric")
    ∧ (∀ s q, stodModel s.data = some (StodRes.fin q) →
        (q = 0 ∨ (1 / 2 ^ 1021 ≤ |q| ∧ |q| ≤ 2 ^ 1023)) →
        value_as_number (Value.str s) = .ok q)
    ∧ value_as_number (Value.str "1e5") = .ok 100000
    ∧ value_as_number (Value.str "0x10") = .ok 16
    ∧ (∀ l r a b, value_as_number l = .ok a → value_as_number r = .ok b →
        termOp '*' l r = .ok (Value.float (a * b))
        ∧ subOp l r = .ok (Value.float (a - b))
        ∧ powOp l r = .ok (Value.float (qpow a b))
        ∧ (b ≠ 0 → termOp '/' l r = .ok (Value.float (a / b))
            ∧ termOp '%' l r = .ok (Value.float (qfmod a b)))
        ∧ (b = 0 → termOp '/' l r = .error "Division by zero"
            ∧ termOp '%' l r = .error "Modulo by zero")) := by
  refine ⟨fun _ => rfl, rfl, fun _ => rfl, ?_, ?_, ?_, ?_, ?_⟩
  · intro s h
    simp [value_as_number, h]
  · intro s q h _
    simp [value_as_number, h]
  · calc value_as_number (Value.str "1e5")
        = .ok (((1 : Nat) : ℚ) * (10 : ℚ) ^ (5 : Nat)) := rfl
      _ = .ok 100000 := by norm_num
  · calc value_as_number (Value.str "0x10")
        = .ok (((16 : Nat) : ℚ)) := rfl
      _ = .ok 16 := by norm_num
  · intro l r a b h1 h2
    refine ⟨?_, ?_, ?_, fun hb => ⟨?_, ?_⟩, fun hb => ⟨?_, ?_⟩⟩
    · simp [termOp, h1, h2, exc_ok_bind]
    · simp [subOp, h1, h2, exc_ok_bind]
    · simp [powOp, h1, h2, exc_ok_bind]
    · simp [termOp, h1, h2, hb, exc_ok_bind]
    · simp [termOp, h1, h2, hb, exc_ok_bind]
    · simp [termOp, h1, h2, hb, exc_ok_bind]
    · simp [termOp, h1, h2, hb, exc_ok_bind]

/-- C6 witness: the string `"3"` coerces and `*` yields a float. -/
theorem C6_numeric_ops_coerce_strings_witness :
    termOp '*' (Value.str "3") (Value.int 2)
      = .ok (Value.float (((3 : Nat) : ℚ) * ((2 : Int) : ℚ))) :=
  (C6_numeric_ops_coerce_strings.2.2.2.2.2.2.2 (Value.str "3") (Value.int 2) _ _ rfl rfl).1

/-- C5: for `int64` integers `a`, `b` with `b ≠ 0`, evaluating the expression
text `"a / b"` (decimal renderings joined by `" / "`) yields the floating
value equal to the rational quotient `a / b`, in every context, environment
and state (the evaluation is pure); evaluating `"a / 0"` raises
`"Division by zero"` and `"a % 0"` raises `"Modulo by zero"` instead of
producing a value. -/
theorem C5_integer_division (a b : Int)
    (ha1 : int64Min ≤ a) (ha2 : a ≤ int64Max)
    (hb1 : int64Min ≤ b) (hb2 : b ≤ int64Max) :
    (b ≠ 0 → ∀ fuel ctx env st,
      evalExpr (fuel + 6) ctx (intRepr a ++ " / " ++ intRepr b) env st
        = Outcome.ok (Value.float ((a : ℚ) / (b : ℚ))) st)
    ∧ (∀ fuel ctx env st,
      evalExpr (fuel + 6) ctx (intRepr a ++ " / 0") env st
        = Outcome.err "Division by zero" st)
    ∧ (∀ fuel ctx env st,
      evalExpr (fuel + 6) ctx (intRepr a ++ " % 0") env st
        = Outcome.err "Modulo by zero" st) := by
  have hdata1 : (intRepr a ++ " / " ++ intRepr b).data
      = intChars a ++ (' ' :: '/' :: ' ' :: intChars b) := by
    simp only [String.data_append, List.append_assoc]
    rfl
  have hdata2 : (intRepr a ++ " / 0").data
      = intChars a ++ (' ' :: '/' :: ' ' :: intChars 0) := by
    rw [String.data_append]
    rfl
  have hdata3 : (intRepr a ++ " % 0").data
      = intChars a ++ (' ' :: '%' :: ' ' :: intChars 0) := by
    rw [String.data_append]
    rfl
  refine ⟨?_, ?_, ?_⟩
  · intro hb fuel ctx env st
    rw [evalExpr_int_op fuel ctx env a b '/' (Or.inl rfl) ha1 ha2 hb1 hb2 _ hdata1 st]
    have hto : termOp '/' (.int a) (.int b) = .ok (.float ((a : ℚ) / (b : ℚ))) := by
      simp [termOp, value_as_number, exc_ok_bind, Int.cast_eq_zero, hb]
    rw [hto]
  · intro fuel ctx env st
    rw [evalExpr_int_op fuel ctx env a 0 '/' (Or.inl rfl) ha1 ha2 (by decide) (by decide)
      _ hdata2 st]
    have hto : termOp '/' (.int a) (.int 0) = .error "Division by zero" := by
      simp [termOp, value_as_number, exc_ok_bind]
    rw [hto]
  · intro fuel ctx env st
    rw [evalExpr_int_op fuel ctx env a 0 '%' (Or.inr rfl) ha1 ha2 (by decide) (by decide)
      _ hdata3 st]
    have hto : termOp '%' (.int a) (.int 0) = .error "Modulo by zero" := by
      simp [termOp, value_as_number, exc_ok_bind]
    rw [hto]

/-- C5 witness: `"7 / 2"` evaluates to the float `7/2` (that is, `3.5`). -/
theorem C5_integer_division_witness :
    evalExpr (0 + 6) (initCtx "") (intRepr 7 ++ " / " ++ intRepr 2) 0 (initSt [] [])
      = Outcome.ok (Value.float (((7 : Int) : ℚ) / ((2 : Int) : ℚ))) (initSt [] []) :=
  (C5_integer_division 7 2 (by decide) (by decide) (by decide) (by decide)).1
    (by decide) 0 (initCtx "") 0 (initSt [] [])

/-- C3: `Environment::set` writes only into the assigned-to scope's own map
(every other scope index is untouched), and executing an `if`/`while`/`for`
body — which runs in a fresh child Environment — leaves every binding
visible from the enclosing Environment unchanged after the block completes
(this holds even when the name was already bound in an enclosing scope,
which is stronger than the claim's "unless" allows for). -/
theorem C3_block_scoping :
    (∀ st e n v st' u, envSet e n v st = Outcome.ok u st' →
      ∀ i, i ≠ e → st'.envs.get? i = st.envs.get? i)
    ∧ (∀ fuel ctx cond tb eb env st st' n, WFSt st → env < st.envs.length →
      execBlock fuel ctx [Node.iff cond tb eb] env st = Outcome.ok () st' →
      envGet st' env n = envGet st env n)
    ∧ (∀ fuel ctx cond blk env st st' n, WFSt st → env < st.envs.length →
      execBlock fuel ctx [Node.wh cond blk] env st = Outcome.ok () st' →
      envGet st' env n = envGet st env n)
    ∧ (∀ fuel ctx var it blk env st st' n, WFSt st → env < st.envs.length →
      execBlock fuel ctx [Node.forIn var it blk] env st = Outcome.ok () st' →
      envGet st' env n = envGet st env n) := by
  refine ⟨?_, ?_, ?_, ?_⟩
  · intro st e n v st' u heq i hne
    unfold envSet at heq
    cases hsc : st.envs.get? e with
    | none =>
      rw [hsc] at heq
      injection heq with h1 h2
      rw [h2]
    | some sc =>
      rw [hsc] at heq
      dsimp only at heq
      by_cases hc : (isConstName n && (lookupA sc.vars n).isSome) = true
      · rw [if_pos hc] at heq
        cases heq
      · rw [if_neg hc] at heq
        injection heq with h1 h2
        rw [← h2]
        simp only [List.get?_eq_getElem?]
        exact List.getElem?_set_ne (fun h => hne h.symm)
  · intro fuel ctx cond tb eb env st st' n hwf henv hexec
    refine envGet_after_single fuel ctx _ env st st' n hwf henv (fun g => ?_) hexec
    match g with
    | 0 => exact fun _ => trivial
    | g' + 1 => exact framesAll_ifNode g' ctx cond tb eb env
  · intro fuel ctx cond blk env st st' n hwf henv hexec
    refine envGet_after_single fuel ctx _ env st st' n hwf henv (fun g => ?_) hexec
    match g with
    | 0 => exact fun _ => trivial
    | g' + 1 => exact framesAll_whNode g' ctx cond blk env
  · intro fuel ctx var it blk env st st' n hwf henv hexec
    refine envGet_after_single fuel ctx _ env st st' n hwf henv (fun g => ?_) hexec
    match g with
    | 0 => exact fun _ => trivial
    | g' + 1 => exact framesAll_forInNode g' ctx var it blk env

/-- C3 witness: running `if 1:` with body `x = 2` from a fresh interpreter
leaves the global binding of `x` exactly as before (still absent). -/
theorem C3_block_scoping_witness :
    envGet stIfAssign 0 "x" = envGet (initSt [] []) 0 "x" :=
  C3_block_scoping.2.1 30 (initCtx "") "1" [Node.assign "x" "2"] [] 0
    (initSt [] []) stIfAssign "x" (WFSt_initSt [] []) (by decide) rfl

end Bloa

